import Mathlib

/-!
Verification of the Magolor front end (lexer + Pratt parser, from
`lexer.go`, `token.go`, `parser.go`, `ast.go`).

Source strings are modelled as lists of bytes (`Nat`, each < 256 in
practice); Go slices of the input are contiguous sub-lists.  The internal
character-consuming loops of the lexer (`skipWhitespace`, `readIdentifier`,
`readNumber`, `readString`) are given explicit fuel `input.length + 1`,
which is enough for every state satisfying the reachable-state invariant
`LexInv` (each iteration advances `position` by one and the loops stop at
the 0 byte that marks end of input).
-/

/-- Bytes of a source string or of a token literal. -/
abbrev Bytes := List Nat

/-- Helper turning an ASCII Lean string literal into its byte list. -/
def bs (s : String) : Bytes := s.data.map Char.toNat

/-- `TokenType` from `token.go`: a closed enumeration (Go uses the string
values themselves; `ttStr` below recovers them). -/
inductive TokenType where
  | ILLEGAL | EOF
  | IDENT | INT | STRING | FLOAT | BOOL | NIL
  | LPAREN | RPAREN | LBRACE | RBRACE | COMMA | SEMICOLON
  | ADD | SUB | MUL | DIV | ASSIGN
  | EQ | NOT_EQ | LT | GT
  | NOT | AND | OR | LE | GE | MOD
  | IF | ELSE | WHILE | FOR | LOOP | IN | FUNC | RETURN
  | TYPE | VOID | TYPEOF | BREAK | CONTINUE
  deriving DecidableEq, Repr

/-- The Go string value of each `TokenType` constant (`token.go`). -/
def ttStr : TokenType → Bytes
  | .ILLEGAL => bs "ILLEGAL"
  | .EOF => bs "EOF"
  | .IDENT => bs "IDENT"
  | .INT => bs "INT"
  | .STRING => bs "STRING"
  | .FLOAT => bs "FLOAT"
  | .BOOL => bs "BOOL"
  | .NIL => bs "NIL"
  | .LPAREN => bs "("
  | .RPAREN => bs ")"
  | .LBRACE => bs "\x7b"
  | .RBRACE => bs "\x7d"
  | .COMMA => bs ","
  | .SEMICOLON => bs ";"
  | .ADD => bs "+"
  | .SUB => bs "-"
  | .MUL => bs "*"
  | .DIV => bs "/"
  | .ASSIGN => bs "="
  | .EQ => bs "=="
  | .NOT_EQ => bs "!="
  | .LT => bs "<"
  | .GT => bs ">"
  | .NOT => bs "!"
  | .AND => bs "&&"
  | .OR => bs "||"
  | .LE => bs "<="
  | .GE => bs ">="
  | .MOD => bs "%"
  | .IF => bs "if"
  | .ELSE => bs "else"
  | .WHILE => bs "while"
  | .FOR => bs "for"
  | .LOOP => bs "loop"
  | .IN => bs "in"
  | .FUNC => bs "fn"
  | .RETURN => bs "return"
  | .TYPE => bs "TYPE"
  | .VOID => bs "void"
  | .TYPEOF => bs "typeof"
  | .BREAK => bs "break"
  | .CONTINUE => bs "continue"

/-- `Token` from `token.go`. -/
structure Token where
  type : TokenType
  literal : Bytes
  deriving DecidableEq, Repr

/-- The token produced at end of input (empty literal). -/
def eofTok : Token := ⟨.EOF, []⟩

/-! ## Precedence table (`token.go`) -/

/-- Precedence constants from `token.go` (`LOWEST` .. `CALL`; the Go names,
with `PREFIX` rendered as `PREFIX_PREC`). -/
def LOWEST : Nat := 1
def OR_PREC : Nat := 2
def AND_PREC : Nat := 3
def EQUALS : Nat := 4
def LESSGREATER : Nat := 5
def SUM : Nat := 6
def PRODUCT : Nat := 7
def PREFIX_PREC : Nat := 8
def CALL : Nat := 9

/-- The `precedences` map from `token.go`; `none` for token types absent
from the map. -/
def precedences : TokenType → Option Nat
  | .OR => some OR_PREC
  | .AND => some AND_PREC
  | .EQ => some EQUALS
  | .NOT_EQ => some EQUALS
  | .LT => some LESSGREATER
  | .GT => some LESSGREATER
  | .LE => some LESSGREATER
  | .GE => some LESSGREATER
  | .ADD => some SUM
  | .SUB => some SUM
  | .MUL => some PRODUCT
  | .DIV => some PRODUCT
  | .MOD => some PRODUCT
  | .LPAREN => some CALL
  | _ => none

/-! ## Lexer (`lexer.go`) -/

/-- The `Lexer` struct: input bytes, current/next positions and the
current byte (`0` marks end of input, as in Go). -/
structure Lexer where
  input : Bytes
  position : Nat
  readPosition : Nat
  ch : Nat
  deriving Repr, DecidableEq

/-- `readChar` from `lexer.go`. -/
def readChar (l : Lexer) : Lexer :=
  { l with
    ch := l.input.getD l.readPosition 0
    position := l.readPosition
    readPosition := l.readPosition + 1 }

/-- `NewLexer` from `lexer.go`. -/
def newLexer (input : Bytes) : Lexer :=
  readChar { input := input, position := 0, readPosition := 0, ch := 0 }

/-- `peekChar` from `lexer.go`. -/
def peekChar (l : Lexer) : Nat := l.input.getD l.readPosition 0

/-- `isLetter` from `lexer.go`: `unicode.IsLetter(rune(ch)) || ch == '_'`
on a byte; for byte values this is ASCII letters, `_`, and the Latin-1
letters (0xAA, 0xB5, 0xBA, 0xC0-0xD6, 0xD8-0xF6, 0xF8-0xFF). -/
def isLetter (ch : Nat) : Bool :=
  (65 ≤ ch && ch ≤ 90) || (97 ≤ ch && ch ≤ 122) || ch == 95 ||
  ch == 0xAA || ch == 0xB5 || ch == 0xBA ||
  (0xC0 ≤ ch && ch ≤ 0xD6) || (0xD8 ≤ ch && ch ≤ 0xF6) ||
  (0xF8 ≤ ch && ch ≤ 0xFF)

/-- `isDigit` from `lexer.go`. -/
def isDigit (ch : Nat) : Bool := 48 ≤ ch && ch ≤ 57

/-- Whitespace test used by `skipWhitespace` (space, tab, newline, CR). -/
def isWS (ch : Nat) : Bool := ch == 32 || ch == 9 || ch == 10 || ch == 13

/-- The loop of `skipWhitespace`, with explicit fuel. -/
def skipWhitespaceF : Nat → Lexer → Lexer
  | 0, l => l
  | n + 1, l => if isWS l.ch then skipWhitespaceF n (readChar l) else l

/-- The loop of `readIdentifier` (consume letters), with explicit fuel. -/
def readLettersF : Nat → Lexer → Lexer
  | 0, l => l
  | n + 1, l => if isLetter l.ch then readLettersF n (readChar l) else l

/-- The digit-consuming loop of `readNumber`, with explicit fuel. -/
def readDigitsF : Nat → Lexer → Lexer
  | 0, l => l
  | n + 1, l => if isDigit l.ch then readDigitsF n (readChar l) else l

/-- The loop of `readString`: `readChar` until the current byte is `"` or
`0`, with explicit fuel. -/
def readStringLoopF : Nat → Lexer → Lexer
  | 0, l => l
  | n + 1, l =>
    let l' := readChar l
    if l'.ch == 34 || l'.ch == 0 then l' else readStringLoopF n l'

/-- Go slice `input[start:stop]`. -/
def sliceBytes (input : Bytes) (start stop : Nat) : Bytes :=
  (input.drop start).take (stop - start)

/-- `readIdentifier` from `lexer.go`: consume a maximal letter run and
return it together with the new lexer state. -/
def readIdentifier (l : Lexer) : Bytes × Lexer :=
  let l' := readLettersF (l.input.length + 1) l
  (sliceBytes l.input l.position l'.position, l')

/-- `readNumber` from `lexer.go`: digits, then optionally `.` digits. -/
def readNumber (l : Lexer) : Bytes × Lexer :=
  let l1 := readDigitsF (l.input.length + 1) l
  let l2 :=
    if l1.ch == 46 then readDigitsF (l1.input.length + 1) (readChar l1)
    else l1
  (sliceBytes l.input l.position l2.position, l2)

/-- `readString` from `lexer.go`: the bytes strictly between the opening
quote and the closing quote (or end of input), copied verbatim. -/
def readString (l : Lexer) : Bytes × Lexer :=
  let l' := readStringLoopF (l.input.length + 1) l
  (sliceBytes l.input (l.position + 1) l'.position, l')

/-- `lookupIdent` from `lexer.go`: keyword table, defaulting to `IDENT`. -/
def lookupIdent (ident : Bytes) : TokenType :=
  if ident = bs "if" then .IF
  else if ident = bs "else" then .ELSE
  else if ident = bs "int" ∨ ident = bs "string" ∨ ident = bs "void" ∨ ident = bs "float" then .TYPE
  else if ident = bs "return" then .RETURN
  else if ident = bs "fn" ∨ ident = bs "func" then .FUNC
  else if ident = bs "typeof" then .TYPEOF
  else if ident = bs "loop" then .LOOP
  else if ident = bs "while" then .WHILE
  else if ident = bs "for" then .FOR
  else if ident = bs "in" then .IN
  else if ident = bs "true" ∨ ident = bs "false" then .BOOL
  else if ident = bs "null" ∨ ident = bs "nil" then .NIL
  else if ident = bs "break" then .BREAK
  else if ident = bs "continue" then .CONTINUE
  else .IDENT

/-- The dispatch switch of `NextToken` (after `skipWhitespace`).  The Go
`string(l.ch)` conversion is modelled as the one-byte literal `[l.ch]`. -/
def nextTokenDispatch (l : Lexer) : Token × Lexer :=
  if l.ch == 40 then (⟨.LPAREN, [l.ch]⟩, readChar l)
  else if l.ch == 41 then (⟨.RPAREN, [l.ch]⟩, readChar l)
  else if l.ch == 123 then (⟨.LBRACE, [l.ch]⟩, readChar l)
  else if l.ch == 125 then (⟨.RBRACE, [l.ch]⟩, readChar l)
  else if l.ch == 44 then (⟨.COMMA, [l.ch]⟩, readChar l)
  else if l.ch == 59 then (⟨.SEMICOLON, [l.ch]⟩, readChar l)
  else if l.ch == 42 then (⟨.MUL, [l.ch]⟩, readChar l)
  else if l.ch == 45 then (⟨.SUB, [l.ch]⟩, readChar l)
  else if l.ch == 43 then (⟨.ADD, [l.ch]⟩, readChar l)
  else if l.ch == 47 then (⟨.DIV, [l.ch]⟩, readChar l)
  else if l.ch == 60 then (⟨.LT, [l.ch]⟩, readChar l)
  else if l.ch == 62 then (⟨.GT, [l.ch]⟩, readChar l)
  else if l.ch == 61 then
    if peekChar l == 61 then
      let l' := readChar l
      (⟨.EQ, [l.ch, l'.ch]⟩, readChar l')
    else (⟨.ASSIGN, [l.ch]⟩, readChar l)
  else if l.ch == 33 then
    if peekChar l == 61 then
      let l' := readChar l
      (⟨.NOT_EQ, [l.ch, l'.ch]⟩, readChar l')
    else (⟨.NOT, [l.ch]⟩, readChar l)
  else if l.ch == 38 then
    if peekChar l == 38 then
      let l' := readChar l
      (⟨.AND, [l.ch, l'.ch]⟩, readChar l')
    else (⟨.ILLEGAL, [l.ch]⟩, readChar l)
  else if l.ch == 124 then
    if peekChar l == 124 then
      let l' := readChar l
      (⟨.OR, [l.ch, l'.ch]⟩, readChar l')
    else (⟨.ILLEGAL, [l.ch]⟩, readChar l)
  else if l.ch == 37 then (⟨.MOD, [l.ch]⟩, readChar l)
  else if l.ch == 34 then
    (⟨.STRING, (readString l).1⟩, readChar (readString l).2)
  else if l.ch == 0 then (⟨.EOF, []⟩, readChar l)
  else if isLetter l.ch then
    (⟨lookupIdent (readIdentifier l).1, (readIdentifier l).1⟩, (readIdentifier l).2)
  else if isDigit l.ch then
    if 46 ∈ (readNumber l).1 then (⟨.FLOAT, (readNumber l).1⟩, (readNumber l).2)
    else (⟨.INT, (readNumber l).1⟩, (readNumber l).2)
  else (⟨.ILLEGAL, [l.ch]⟩, readChar l)

/-- `NextToken` from `lexer.go`: skip whitespace, then dispatch on the
current byte. -/
def NextToken (l0 : Lexer) : Token × Lexer :=
  nextTokenDispatch (skipWhitespaceF (l0.input.length + 1) l0)

/-- Collect `n` successive tokens from a lexer state. -/
def lexTokens : Lexer → Nat → List Token
  | _, 0 => []
  | l, n + 1 =>
    let (t, l') := NextToken l
    t :: lexTokens l' n

/-- The token stream of a source text: `input.length + 1` calls of
`NextToken` starting from a fresh lexer.  Each call advances `position`
by at least one, so every later call would return the `EOF` token with
empty literal (the padding the parser model uses). -/
def tokenize (input : Bytes) : List Token :=
  lexTokens (newLexer input) (input.length + 1)

/-! ## AST (`ast.go`)

Child fields that a parse function can leave `nil` are `Option`; fields
that every constructing parse function checks before building the node are
plain.  `Stmt.nilStmt` models a Go `nil` typed statement pointer wrapped
in a (non-nil) `Statement` interface value: `parseStatement` returns the
result of e.g. `parseIfStatement` (a `*IfStatement`) as a `Statement`,
so a `nil` pointer becomes a non-nil interface and `ParseProgram`'s
`stmt != nil` test keeps it. -/

/-- `Parameter` from `ast.go` (type token and name identifier token). -/
structure Param where
  type : Token
  name : Token
  deriving DecidableEq, Repr

mutual

inductive Expr where
  | ident (tok : Token) (value : Bytes)
  | intLit (tok : Token) (value : Int)
  | floatLit (tok : Token)
  | stringLit (tok : Token) (value : Bytes)
  | boolLit (tok : Token) (value : Bool)
  | nilLit (tok : Token)
  | voidLit (tok : Token)
  | prefixE (tok : Token) (op : Bytes) (right : Option Expr)
  | infixE (tok : Token) (op : Bytes) (left : Expr) (right : Option Expr)
  | typeofE (tok : Token) (e : Option Expr)
  deriving Repr

inductive Block where
  | mk (tok : Token) (stmts : List Stmt)
  deriving Repr

inductive Stmt where
  | exprStmt (tok : Token) (e : Expr)
  | varDecl (tok : Token) (name : Token) (value : Option Expr)
  | ret (tok : Token) (value : Option Expr)
  | brk (tok : Token)
  | cont (tok : Token)
  | blockS (b : Block)
  | ifS (tok : Token) (cond : Expr) (thenB : Block) (elseIfs : List (Expr × Block))
      (elseB : Option Block)
  | whileS (tok : Token) (cond : Expr) (body : Block)
  | loopS (tok : Token) (body : Block)
  | forS (tok : Token) (ident : Token) (iter : Expr) (body : Block)
  | funcS (tok : Token) (name : Token) (params : List Param) (retType : Token) (body : Block)
  | nilStmt
  deriving Repr

end

/-- `Program` from `ast.go`. -/
structure Program where
  statements : List Stmt
  deriving Repr

/-! ## Parser state (`parser.go`) -/

/-- The `Parser` struct: three-token lookahead buffer, the not yet
buffered rest of the token stream, and the error list. -/
structure PState where
  toks : List Token
  curToken : Token
  peekToken : Token
  peekPeek : Token
  errors : List Bytes
  deriving Repr

/-- Pull one token from the stream; past its end the lexer keeps
returning the `EOF` token with empty literal. -/
def popTok : List Token → Token × List Token
  | [] => (eofTok, [])
  | t :: ts => (t, ts)

/-- `nextToken` from `parser.go`: shift the lookahead buffer. -/
def pNext (σ : PState) : PState :=
  let (t, ts) := popTok σ.toks
  { σ with curToken := σ.peekToken, peekToken := σ.peekPeek, peekPeek := t, toks := ts }

/-- `addError` from `parser.go`. -/
def PState.addError (σ : PState) (msg : Bytes) : PState :=
  { σ with errors := σ.errors ++ [msg] }

/-- The error text of `expectPeek`. -/
def expectPeekMsg (t actual : TokenType) : Bytes :=
  bs "expected next token to be " ++ ttStr t ++ bs ", got " ++ ttStr actual ++ bs " instead"

/-- `expectPeek` from `parser.go`. -/
def expectPeek (t : TokenType) (σ : PState) : Bool × PState :=
  if σ.peekToken.type = t then (true, pNext σ)
  else (false, σ.addError (expectPeekMsg t σ.peekToken.type))

/-- `peekPrecedence` from `parser.go`. -/
def peekPrecedence (σ : PState) : Nat := (precedences σ.peekToken.type).getD LOWEST

/-- `curPrecedence` from `parser.go`. -/
def curPrecedence (σ : PState) : Nat := (precedences σ.curToken.type).getD LOWEST

/-- `NewParser`: three `nextToken` calls load the lookahead buffer with
the first three stream tokens (the zero-value tokens are shifted out). -/
def mkParser (ts : List Token) : PState :=
  let (c, r1) := popTok ts
  let (p1, r2) := popTok r1
  let (p2, r3) := popTok r2
  ⟨r3, c, p1, p2, []⟩

/-- `skipWhitespaceTokens` from `parser.go`, with fuel (`none` = fuel ran
out; the loop only iterates on `ILLEGAL` tokens with empty literal, which
the lexer never produces). -/
def skipWhitespaceTokens : Nat → PState → Option PState
  | 0, _ => none
  | n + 1, σ =>
    if σ.curToken.type = .ILLEGAL ∧ σ.curToken.literal = [] then
      let σ' := pNext σ
      if σ'.curToken.type = .EOF then some σ' else skipWhitespaceTokens n σ'
    else some σ

/-- `strconv.ParseInt(lit, 10, 64)` on a literal with no sign: succeeds
iff the literal is a nonempty digit run whose value fits in `int64`. -/
def digitsToNat (l : Bytes) : Nat := l.foldl (fun acc d => acc * 10 + (d - 48)) 0

/-- Integer conversion used by the `INT` branch of the parser. -/
def parseIntLit (lit : Bytes) : Option Int :=
  if lit ≠ [] ∧ lit.all isDigit ∧ digitsToNat lit ≤ 2 ^ 63 - 1 then
    some (digitsToNat lit)
  else none

/-- `parseBooleanLiteral` from `parser.go`. -/
def parseBooleanLiteral (σ : PState) : Expr :=
  .boolLit σ.curToken (σ.curToken.literal = bs "true")

/-- `parseBreakStatement` from `parser.go` (never nil). -/
def parseBreakStatement (σ : PState) : Stmt × PState :=
  (.brk σ.curToken, if σ.peekToken.type = .SEMICOLON then pNext σ else σ)

/-- `parseContinueStatement` from `parser.go` (never nil). -/
def parseContinueStatement (σ : PState) : Stmt × PState :=
  (.cont σ.curToken, if σ.peekToken.type = .SEMICOLON then pNext σ else σ)

/-- `parseParameter` from `parser.go`. -/
def parseParameter (σ : PState) : Option Param × PState :=
  if σ.curToken.type = .TYPE then
    let pty := σ.curToken
    match expectPeek .IDENT σ with
    | (true, σ') => (some ⟨pty, σ'.curToken⟩, σ')
    | (false, σ') => (none, σ')
  else (none, σ.addError (bs "expected parameter type, got " ++ ttStr σ.curToken.type))

/-- The comma loop plus closing-paren check of `parseFunctionParameters`.
The result `none` (inside `some`) models Go's `nil` slice returned when
the `)` is missing; the caller stores it as a zero-length parameter
list. -/
def parseFPLoop : Nat → List Param → PState → Option (Option (List Param) × PState)
  | 0, _, _ => none
  | n + 1, params, σ =>
    if σ.peekToken.type = .COMMA then
      let σ1 := pNext σ
      let σ2 := pNext σ1
      match parseParameter σ2 with
      | (some param, σ3) => parseFPLoop n (params ++ [param]) σ3
      | (none, σ3) => parseFPLoop n params σ3
    else
      match expectPeek .RPAREN σ with
      | (true, σ') => some (some params, σ')
      | (false, σ') => some (none, σ')

/-- `parseFunctionParameters` from `parser.go`.  A Go `nil` slice and an
empty slice are both modelled as `[]` (they are indistinguishable to
every consumer in the source). -/
def parseFunctionParameters : Nat → PState → Option (List Param × PState)
  | 0, _ => none
  | n + 1, σ =>
    if σ.peekToken.type = .RPAREN then some ([], pNext σ)
    else
      let σ1 := pNext σ
      match parseParameter σ1 with
      | (some param, σ2) =>
        (parseFPLoop n [param] σ2).map (fun r => (r.1.getD [], r.2))
      | (none, σ2) =>
        (parseFPLoop n [] σ2).map (fun r => (r.1.getD [], r.2))

/-- Go interface conversion at `parseStatement`'s `return` sites: a `nil`
typed statement pointer becomes a non-nil `Statement` interface value. -/
def ifaceStmt : Option Stmt → Stmt
  | some s => s
  | none => .nilStmt

/-- Wrap a nilable typed-statement result into the `Statement` interface
result of `parseStatement`. -/
def wrapIface (r : Option (Option Stmt × PState)) : Option (Option Stmt × PState) :=
  r.map (fun p => (some (ifaceStmt p.1), p.2))

/-! ## The mutually recursive parse functions (`parser.go`)

All functions take explicit fuel as first argument; `none` means the fuel
ran out (never the Go behaviour — sufficiency is proved below), while the
inner `Option` mirrors Go `nil` results. -/

mutual

/-- `parseExpression` from `parser.go`. -/
def parseExpression : Nat → Nat → PState → Option (Option Expr × PState)
  | 0, _, _ => none
  | n + 1, precedence, σ =>
    match parsePrefixExpression n σ with
    | none => none
    | some (none, σ1) => some (none, σ1)
    | some (some leftExp, σ1) => parseExpressionLoop n precedence leftExp σ1

/-- The infix-folding loop of `parseExpression`. -/
def parseExpressionLoop : Nat → Nat → Expr → PState → Option (Option Expr × PState)
  | 0, _, _, _ => none
  | n + 1, precedence, leftExp, σ =>
    if σ.peekToken.type ≠ .SEMICOLON ∧ precedence < peekPrecedence σ ∧
        σ.peekToken.type ≠ .EOF then
      let σ1 := pNext σ
      match parseInfixExpression n leftExp σ1 with
      | none => none
      | some (none, σ2) => some (none, σ2)
      | some (some leftExp', σ2) => parseExpressionLoop n precedence leftExp' σ2
    else some (some leftExp, σ)

/-- `parsePrefixExpression` from `parser.go` (the prefix-position
dispatch). -/
def parsePrefixExpression : Nat → PState → Option (Option Expr × PState)
  | 0, _ => none
  | n + 1, σ0 =>
    match skipWhitespaceTokens n σ0 with
    | none => none
    | some σ =>
      match σ.curToken.type with
      | .VOID => some (some (.voidLit σ.curToken), σ)
      | .IDENT => some (some (.ident σ.curToken σ.curToken.literal), σ)
      | .INT =>
        match parseIntLit σ.curToken.literal with
        | none =>
          some (none, σ.addError
            (bs "could not parse \"" ++ σ.curToken.literal ++ bs "\" as integer"))
        | some v => some (some (.intLit σ.curToken v), σ)
      | .BOOL => some (some (parseBooleanLiteral σ), σ)
      | .NIL => some (some (.nilLit σ.curToken), σ)
      | .STRING => some (some (.stringLit σ.curToken σ.curToken.literal), σ)
      | .FLOAT => some (some (.floatLit σ.curToken), pNext σ)
      | .LPAREN =>
        let σ1 := pNext σ
        match parseExpression n LOWEST σ1 with
        | none => none
        | some (exp, σ2) =>
          match expectPeek .RPAREN σ2 with
          | (true, σ3) => some (exp, σ3)
          | (false, σ3) => some (none, σ3)
      | .SUB => parsePrefixOperatorExpression n σ
      | .ADD => parsePrefixOperatorExpression n σ
      | .TYPEOF => parseTypeofExpression n σ
      | .EOF => some (none, σ)
      | t =>
        some (none, σ.addError (bs "no prefix parse function for " ++ ttStr t ++ bs " found"))

/-- `parsePrefixOperatorExpression` from `parser.go`: note it returns the
node even when the sub-parse of `Right` failed. -/
def parsePrefixOperatorExpression : Nat → PState → Option (Option Expr × PState)
  | 0, _ => none
  | n + 1, σ =>
    let tok := σ.curToken
    let op := σ.curToken.literal
    let σ1 := pNext σ
    match parseExpression n PREFIX_PREC σ1 with
    | none => none
    | some (right, σ2) => some (some (.prefixE tok op right), σ2)

/-- `parseInfixExpression` from `parser.go`: likewise returns the node
even when the sub-parse of `Right` failed. -/
def parseInfixExpression : Nat → Expr → PState → Option (Option Expr × PState)
  | 0, _, _ => none
  | n + 1, left, σ =>
    let tok := σ.curToken
    let op := σ.curToken.literal
    let prec := curPrecedence σ
    let σ1 := pNext σ
    match parseExpression n prec σ1 with
    | none => none
    | some (right, σ2) => some (some (.infixE tok op left right), σ2)

/-- `parseTypeofExpression` from `parser.go`. -/
def parseTypeofExpression : Nat → PState → Option (Option Expr × PState)
  | 0, _ => none
  | n + 1, σ =>
    let tok := σ.curToken
    match expectPeek .LPAREN σ with
    | (false, σ1) => some (none, σ1)
    | (true, σ1) =>
      let σ2 := pNext σ1
      match parseExpression n LOWEST σ2 with
      | none => none
      | some (e, σ3) =>
        match expectPeek .RPAREN σ3 with
        | (true, σ4) => some (some (.typeofE tok e), σ4)
        | (false, σ4) => some (none, σ4)

/-- `parseReturnStatement` from `parser.go` (never returns a nil
statement). -/
def parseReturnStatement : Nat → PState → Option (Stmt × PState)
  | 0, _ => none
  | n + 1, σ =>
    let tok := σ.curToken
    if σ.peekToken.type = .SEMICOLON then some (.ret tok none, pNext σ)
    else if σ.peekToken.type = .RBRACE then some (.ret tok none, σ)
    else
      let σ1 := pNext σ
      match parseExpression n LOWEST σ1 with
      | none => none
      | some (v, σ2) =>
        let σ3 := if σ2.peekToken.type = .SEMICOLON then pNext σ2 else σ2
        some (.ret tok v, σ3)

/-- `parseBlockStatement` from `parser.go`. -/
def parseBlockStatement : Nat → PState → Option (Block × PState)
  | 0, _ => none
  | n + 1, σ =>
    let tok := σ.curToken
    let σ1 := pNext σ
    parseBlockLoop n tok [] σ1

/-- The statement loop of `parseBlockStatement`. -/
def parseBlockLoop : Nat → Token → List Stmt → PState → Option (Block × PState)
  | 0, _, _, _ => none
  | n + 1, tok, acc, σ =>
    if σ.curToken.type ≠ .RBRACE ∧ σ.curToken.type ≠ .EOF then
      match parseStatement n σ with
      | none => none
      | some (stmtOpt, σ1) =>
        let acc' := match stmtOpt with
          | some s => acc ++ [s]
          | none => acc
        parseBlockLoop n tok acc' (pNext σ1)
    else some (.mk tok acc, σ)

/-- `parseStatement` from `parser.go` (dispatch on the current token).
The keyword cases go through `wrapIface`: Go converts the typed nil
pointers those functions can return into non-nil interface values. -/
def parseStatement : Nat → PState → Option (Option Stmt × PState)
  | 0, _ => none
  | n + 1, σ0 =>
    match skipWhitespaceTokens n σ0 with
    | none => none
    | some σ =>
      match σ.curToken.type with
      | .IF => wrapIface (parseIfStatement n σ)
      | .RETURN => (parseReturnStatement n σ).map (fun r => (some r.1, r.2))
      | .BREAK =>
        some (some (parseBreakStatement σ).1, (parseBreakStatement σ).2)
      | .CONTINUE =>
        some (some (parseContinueStatement σ).1, (parseContinueStatement σ).2)
      | .WHILE => wrapIface (parseWhileStatement n σ)
      | .LOOP => wrapIface (parseLoopStatement n σ)
      | .FOR => wrapIface (parseForStatement n σ)
      | .FUNC => wrapIface (parseFunctionStatement n σ)
      | .TYPE =>
        if σ.peekToken.type = .IDENT then
          if σ.peekPeek.type = .LPAREN then wrapIface (parseFunctionStatement n σ)
          else if σ.peekPeek.type = .ASSIGN then wrapIface (parseDeclarationStatement n σ)
          else wrapIface (parseDeclarationStatement n σ)
        else some (none, σ)
      | .VOID =>
        if σ.peekToken.type = .IDENT then
          if σ.peekPeek.type = .LPAREN then wrapIface (parseFunctionStatement n σ)
          else if σ.peekPeek.type = .ASSIGN then wrapIface (parseDeclarationStatement n σ)
          else wrapIface (parseDeclarationStatement n σ)
        else some (none, σ)
      | .RBRACE => some (none, σ)
      | .SEMICOLON => some (none, σ)
      | .EOF => some (none, σ)
      | _ =>
        match parseExpression n LOWEST σ with
        | none => none
        | some (some expr, σ1) =>
          let stmt := Stmt.exprStmt σ1.curToken expr
          let σ2 := if σ1.peekToken.type = .SEMICOLON then pNext σ1 else σ1
          some (some stmt, σ2)
        | some (none, σ1) =>
          if σ1.curToken.type ≠ .EOF then
            some (none, σ1.addError (bs "unexpected token: " ++ σ1.curToken.literal))
          else some (none, σ1)

/-- `parseDeclarationStatement` from `parser.go`: note the initializer
`Value` is stored without a nil check. -/
def parseDeclarationStatement : Nat → PState → Option (Option Stmt × PState)
  | 0, _ => none
  | n + 1, σ =>
    if σ.curToken.type ≠ .TYPE ∧ σ.curToken.type ≠ .VOID then
      some (none, σ.addError (bs "expected type, got " ++ ttStr σ.curToken.type))
    else
      let tok := σ.curToken
      match expectPeek .IDENT σ with
      | (false, σ1) => some (none, σ1)
      | (true, σ1) =>
        let name := σ1.curToken
        match expectPeek .ASSIGN σ1 with
        | (false, σ2) => some (none, σ2)
        | (true, σ2) =>
          let σ3 := pNext σ2
          match parseExpression n LOWEST σ3 with
          | none => none
          | some (value, σ4) =>
            let σ5 := if σ4.peekToken.type = .SEMICOLON then pNext σ4 else σ4
            some (some (.varDecl tok name value), σ5)

/-- `parseWhileStatement` from `parser.go`. -/
def parseWhileStatement : Nat → PState → Option (Option Stmt × PState)
  | 0, _ => none
  | n + 1, σ =>
    let tok := σ.curToken
    match expectPeek .LPAREN σ with
    | (false, σ1) => some (none, σ1.addError (bs "expected '(' after 'while'"))
    | (true, σ1) =>
      let σ2 := pNext σ1
      match parseExpression n LOWEST σ2 with
      | none => none
      | some (none, σ3) => some (none, σ3)
      | some (some cond, σ3) =>
        match expectPeek .RPAREN σ3 with
        | (false, σ4) => some (none, σ4.addError (bs "expected ')' after while condition"))
        | (true, σ4) =>
          match expectPeek .LBRACE σ4 with
          | (false, σ5) => some (none, σ5.addError (bs "expected '\x7b' after while condition"))
          | (true, σ5) =>
            match parseBlockStatement n σ5 with
            | none => none
            | some (blk, σ6) => some (some (.whileS tok cond blk), σ6)

/-- `parseLoopStatement` from `parser.go`. -/
def parseLoopStatement : Nat → PState → Option (Option Stmt × PState)
  | 0, _ => none
  | n + 1, σ =>
    let tok := σ.curToken
    match expectPeek .LBRACE σ with
    | (false, σ1) => some (none, σ1.addError (bs "expected '\x7b' after 'loop'"))
    | (true, σ1) =>
      match parseBlockStatement n σ1 with
      | none => none
      | some (blk, σ2) => some (some (.loopS tok blk), σ2)

/-- `parseForStatement` from `parser.go`. -/
def parseForStatement : Nat → PState → Option (Option Stmt × PState)
  | 0, _ => none
  | n + 1, σ =>
    let tok := σ.curToken
    match expectPeek .LPAREN σ with
    | (false, σ1) => some (none, σ1.addError (bs "expected '(' after 'for'"))
    | (true, σ1) =>
      match expectPeek .IDENT σ1 with
      | (false, σ2) =>
        some (none, σ2.addError (bs "expected identifier after '(' in for statement"))
      | (true, σ2) =>
        let ident := σ2.curToken
        match expectPeek .IN σ2 with
        | (false, σ3) =>
          some (none, σ3.addError (bs "expected 'in' after identifier in for statement"))
        | (true, σ3) =>
          let σ4 := pNext σ3
          match parseExpression n LOWEST σ4 with
          | none => none
          | some (none, σ5) => some (none, σ5)
          | some (some iter, σ5) =>
            match expectPeek .RPAREN σ5 with
            | (false, σ6) => some (none, σ6.addError (bs "expected ')' after for loop iterable"))
            | (true, σ6) =>
              match expectPeek .LBRACE σ6 with
              | (false, σ7) => some (none, σ7.addError (bs "expected '\x7b' after for loop header"))
              | (true, σ7) =>
                match parseBlockStatement n σ7 with
                | none => none
                | some (blk, σ8) => some (some (.forS tok ident iter blk), σ8)

/-- `parseFunctionStatement` from `parser.go` (header part: `fn name` or
`type name`). -/
def parseFunctionStatement : Nat → PState → Option (Option Stmt × PState)
  | 0, _ => none
  | n + 1, σ =>
    if σ.curToken.type = .FUNC then
      let tok := σ.curToken
      let retTy : Token := ⟨.VOID, bs "void"⟩
      match expectPeek .IDENT σ with
      | (false, σ1) => some (none, σ1)
      | (true, σ1) => parseFunctionRest n tok retTy σ1.curToken σ1
    else
      let tok := σ.curToken
      let retTy := σ.curToken
      match expectPeek .IDENT σ with
      | (false, σ1) => some (none, σ1)
      | (true, σ1) => parseFunctionRest n tok retTy σ1.curToken σ1

/-- The common tail of `parseFunctionStatement`: parameters, brace and
body. -/
def parseFunctionRest : Nat → Token → Token → Token → PState → Option (Option Stmt × PState)
  | 0, _, _, _, _ => none
  | n + 1, tok, retTy, name, σ =>
    match expectPeek .LPAREN σ with
    | (false, σ1) => some (none, σ1)
    | (true, σ1) =>
      match parseFunctionParameters n σ1 with
      | none => none
      | some (params, σ2) =>
        match expectPeek .LBRACE σ2 with
        | (false, σ3) => some (none, σ3)
        | (true, σ3) =>
          match parseBlockStatement n σ3 with
          | none => none
          | some (body, σ4) => some (some (.funcS tok name params retTy body), σ4)

/-- `parseIfStatement` from `parser.go` (condition and then-block; the
else/else-if chain is `parseIfElseLoop`). -/
def parseIfStatement : Nat → PState → Option (Option Stmt × PState)
  | 0, _ => none
  | n + 1, σ =>
    let tok := σ.curToken
    match expectPeek .LPAREN σ with
    | (false, σ1) => some (none, σ1)
    | (true, σ1) =>
      let σ2 := pNext σ1
      match parseExpression n LOWEST σ2 with
      | none => none
      | some (none, σ3) => some (none, σ3)
      | some (some cond, σ3) =>
        match expectPeek .RPAREN σ3 with
        | (false, σ4) => some (none, σ4)
        | (true, σ4) =>
          match parseIfBody n σ4 with
          | none => none
          | some (none, σ5) => some (none, σ5)
          | some (some thenB, σ5) => parseIfElseLoop n tok cond thenB [] σ5

/-- A conditional body: a braced block, or a single statement synthesized
into a one-statement block (this code appears three times verbatim in
`parseIfStatement`). -/
def parseIfBody : Nat → PState → Option (Option Block × PState)
  | 0, _ => none
  | n + 1, σ =>
    if σ.peekToken.type = .LBRACE then
      match expectPeek .LBRACE σ with
      | (false, σ1) => some (none, σ1)
      | (true, σ1) =>
        match parseBlockStatement n σ1 with
        | none => none
        | some (blk, σ2) => some (some blk, σ2)
    else
      let σ1 := pNext σ
      match parseStatement n σ1 with
      | none => none
      | some (none, σ2) => some (none, σ2)
      | some (some s, σ2) => some (some (.mk σ2.curToken [s]), σ2)

/-- The else/else-if collection loop of `parseIfStatement`; a plain
`else` sets the else-block and breaks. -/
def parseIfElseLoop : Nat → Token → Expr → Block → List (Expr × Block) → PState →
    Option (Option Stmt × PState)
  | 0, _, _, _, _, _ => none
  | n + 1, tok, cond, thenB, elseIfs, σ =>
    if σ.peekToken.type = .ELSE then
      let σ1 := pNext σ
      if σ1.peekToken.type = .IF then
        let σ2 := pNext σ1
        match expectPeek .LPAREN σ2 with
        | (false, σ3) => some (none, σ3)
        | (true, σ3) =>
          let σ4 := pNext σ3
          match parseExpression n LOWEST σ4 with
          | none => none
          | some (none, σ5) => some (none, σ5)
          | some (some c, σ5) =>
            match expectPeek .RPAREN σ5 with
            | (false, σ6) => some (none, σ6)
            | (true, σ6) =>
              match parseIfBody n σ6 with
              | none => none
              | some (none, σ7) => some (none, σ7)
              | some (some blk, σ7) =>
                parseIfElseLoop n tok cond thenB (elseIfs ++ [(c, blk)]) σ7
      else
        match parseIfBody n σ1 with
        | none => none
        | some (none, σ2) => some (none, σ2)
        | some (some blk, σ2) => some (some (.ifS tok cond thenB elseIfs (some blk)), σ2)
    else some (some (.ifS tok cond thenB elseIfs none), σ)

/-- The statement loop of `ParseProgram`. -/
def parseProgramLoop : Nat → List Stmt → PState → Option (List Stmt × PState)
  | 0, _, _ => none
  | n + 1, acc, σ =>
    if σ.curToken.type ≠ .EOF then
      match skipWhitespaceTokens n σ with
      | none => none
      | some σ1 =>
        if σ1.curToken.type = .EOF then some (acc, σ1)
        else
          match parseStatement n σ1 with
          | none => none
          | some (stmtOpt, σ2) =>
            let acc' := match stmtOpt with
              | some s => acc ++ [s]
              | none => acc
            parseProgramLoop n acc' (pNext σ2)
    else some (acc, σ)

end

/-- `ParseProgram` from `parser.go`. -/
def ParseProgram (n : Nat) (σ : PState) : Option (Program × PState) :=
  (parseProgramLoop n [] σ).map (fun r => (⟨r.1⟩, r.2))

/-- Fuel that is always sufficient (see the termination development). -/
def parseFuel (input : Bytes) : Nat := 64 * input.length + 256

/-- The whole pipeline: lex, then parse, returning the program and the
parser's accumulated error list (`GetErrors`). -/
def runParser (input : Bytes) : Option (Program × List Bytes) :=
  (ParseProgram (parseFuel input) (mkParser (tokenize input))).map
    (fun r => (r.1, r.2.errors))

/-! ## Canonical text rendering: the `String()` methods of `ast.go` and
`parser.go`.

On a `nil` child Go would dereference a nil pointer (a panic); the marker
`nilRender` stands for that unreachable-by-rendered-claims case. -/

/-- Marker for rendering a nil child (Go panics there). -/
def nilRender : Bytes := bs "<nil>"

/-- `String()` of `Parameter`: `type name`. -/
def renderParam (p : Param) : Bytes := p.type.literal ++ bs " " ++ p.name.literal

/-- `strings.Join(params, ", ")` over rendered parameters. -/
def renderParams : List Param → Bytes
  | [] => []
  | [p] => renderParam p
  | p :: rest => renderParam p ++ bs ", " ++ renderParams rest

mutual

/-- `String()` of the expression nodes. -/
def renderExpr : Expr → Bytes
  | .ident _ v => v
  | .intLit tok _ => tok.literal
  | .floatLit tok => tok.literal
  | .stringLit _ v => bs "\"" ++ v ++ bs "\""
  | .boolLit tok _ => tok.literal
  | .nilLit tok => tok.literal
  | .voidLit tok => tok.literal
  | .prefixE _ op r => bs "(" ++ op ++ renderOExpr r ++ bs ")"
  | .infixE _ op l r =>
    bs "(" ++ renderExpr l ++ bs " " ++ op ++ bs " " ++ renderOExpr r ++ bs ")"
  | .typeofE _ e => bs "typeof(" ++ renderOExpr e ++ bs ")"

/-- Rendering of a nilable expression child. -/
def renderOExpr : Option Expr → Bytes
  | some e => renderExpr e
  | none => nilRender

/-- `String()` of `BlockStatement`: `{ s1 s2 ... }` with a space after
each statement. -/
def renderBlock : Block → Bytes
  | .mk _ ss => bs "\x7b " ++ renderStmts ss ++ bs "\x7d"

/-- Statements of a block, each followed by one space. -/
def renderStmts : List Stmt → Bytes
  | [] => []
  | s :: ss => renderStmt s ++ bs " " ++ renderStmts ss

/-- `String()` of the statement nodes. -/
def renderStmt : Stmt → Bytes
  | .exprStmt _ e => renderExpr e
  | .varDecl tok name v =>
    tok.literal ++ bs " " ++ name.literal ++ bs " = " ++ renderOExpr v ++ bs ";"
  | .ret _ (some v) => bs "return " ++ renderExpr v ++ bs ";"
  | .ret _ none => bs "return;"
  | .brk _ => bs "break;"
  | .cont _ => bs "continue;"
  | .blockS b => renderBlock b
  | .ifS _ cond thenB elseIfs elseB =>
    bs "if (" ++ renderExpr cond ++ bs ") " ++ renderBlock thenB ++
      renderElseIfs elseIfs ++
      (match elseB with
       | some b => bs " else " ++ renderBlock b
       | none => [])
  | .whileS _ cond body => bs "while (" ++ renderExpr cond ++ bs ") " ++ renderBlock body
  | .loopS _ body => bs "loop " ++ renderBlock body
  | .forS _ ident iter body =>
    bs "for (" ++ ident.literal ++ bs " in " ++ renderExpr iter ++ bs ") " ++ renderBlock body
  | .funcS _ name params retTy body =>
    retTy.literal ++ bs " " ++ name.literal ++ bs "(" ++ renderParams params ++ bs ") " ++
      renderBlock body
  | .nilStmt => nilRender

/-- The else-if clauses of an `IfStatement`. -/
def renderElseIfs : List (Expr × Block) → Bytes
  | [] => []
  | (c, b) :: rest =>
    bs " else if (" ++ renderExpr c ++ bs ") " ++ renderBlock b ++ renderElseIfs rest

end

/-- `String()` of `Program`: each statement followed by a newline. -/
def renderProgram (pr : Program) : Bytes :=
  (pr.statements.map (fun s => renderStmt s ++ bs "\n")).flatten

/-! ## Definitions used by the verification statements -/

/-- `lexRun l n` is the token of the `(n+1)`-st `NextToken` call starting
from `l`, together with the lexer state after it. -/
def lexRun : Lexer → Nat → Token × Lexer
  | l, 0 => NextToken l
  | l, n + 1 => lexRun (NextToken l).2 n

/-- Reachable-state invariant of the lexer: `readPosition` is one past
`position`, and `ch` caches the byte at `position` (0 past the end).
`NewLexer` establishes it and `readChar` preserves it. -/
def LexInv (l : Lexer) : Prop :=
  l.readPosition = l.position + 1 ∧ l.ch = l.input.getD l.position 0

/-- Weight of a buffered token in the parser progress measure. -/
def wTok (t : Token) : Nat := if t.type = TokenType.EOF then 0 else 1

/-- Progress measure of a parser state: unread stream tokens plus the
non-`EOF` tokens in the lookahead buffer.  `pNext` never increases it. -/
def muP (σ : PState) : Nat :=
  σ.toks.length + wTok σ.curToken + wTok σ.peekToken + wTok σ.peekPeek

/-- Equality of the stream part of two parser states (everything except
the error list). -/
def sEq (σ σ' : PState) : Prop :=
  σ'.curToken = σ.curToken ∧ σ'.peekToken = σ.peekToken ∧
  σ'.peekPeek = σ.peekPeek ∧ σ'.toks = σ.toks

/-- Result relation of a parse function: the measure does not increase
(and if it is unchanged, the stream part is untouched), and the error
list grows by appending only. -/
def MRes (σ σ' : PState) : Prop :=
  muP σ' ≤ muP σ ∧ (muP σ' = muP σ → sEq σ σ') ∧ σ.errors <+: σ'.errors

/-- Result relation of a parse function that always consumes at least
one token. -/
def MStrict (σ σ' : PState) : Prop :=
  muP σ' < muP σ ∧ σ.errors <+: σ'.errors

/-- Weak result relation: measure does not increase, errors append-only. -/
def MWeak (σ σ' : PState) : Prop :=
  muP σ' ≤ muP σ ∧ σ.errors <+: σ'.errors

/-- The fuel bound of a parse function with slack constant `c`. -/
def PB (σ : PState) (c : Nat) : Nat := 16 * muP σ + c

/-- Shorthand for the precondition of the statement/operator parsers:
the current token is not `EOF`. -/
def curNE (σ : PState) : Prop := σ.curToken.type ≠ TokenType.EOF

/-- The combined sufficiency/monotonicity specification of the mutually
recursive parse functions at one fuel value, proved for all fuel by
strong induction (`pSpec_all`).  Each `_s` field says the function does
not run out of fuel above its bound; each `_m` field bounds its effect
on the progress measure and the error list. -/
structure PSpecS (f : Nat) : Prop where
  pE_s : ∀ p σ, PB σ 4 < f → (parseExpression f p σ).isSome
  pE_m : ∀ p σ r σ', parseExpression f p σ = some (r, σ') → MRes σ σ'
  pEL_s : ∀ p e σ, PB σ 3 < f → (parseExpressionLoop f p e σ).isSome
  pEL_m : ∀ p e σ r σ', parseExpressionLoop f p e σ = some (r, σ') → MRes σ σ'
  pPE_s : ∀ σ, PB σ 3 < f → (parsePrefixExpression f σ).isSome
  pPE_m : ∀ σ r σ', parsePrefixExpression f σ = some (r, σ') → MRes σ σ'
  pPOE_s : ∀ σ, curNE σ → PB σ 2 < f → (parsePrefixOperatorExpression f σ).isSome
  pPOE_m : ∀ σ r σ', curNE σ → parsePrefixOperatorExpression f σ = some (r, σ') →
    MStrict σ σ'
  pIE_s : ∀ e σ, curNE σ → PB σ 2 < f → (parseInfixExpression f e σ).isSome
  pIE_m : ∀ e σ r σ', curNE σ → parseInfixExpression f e σ = some (r, σ') → MStrict σ σ'
  pTE_s : ∀ σ, curNE σ → PB σ 2 < f → (parseTypeofExpression f σ).isSome
  pTE_m : ∀ σ r σ', curNE σ → parseTypeofExpression f σ = some (r, σ') → MRes σ σ'
  pRS_s : ∀ σ, curNE σ → PB σ 2 < f → (parseReturnStatement f σ).isSome
  pRS_m : ∀ σ r σ', curNE σ → parseReturnStatement f σ = some (r, σ') → MRes σ σ'
  pDS_s : ∀ σ, curNE σ → PB σ 2 < f → (parseDeclarationStatement f σ).isSome
  pDS_m : ∀ σ r σ', curNE σ → parseDeclarationStatement f σ = some (r, σ') → MRes σ σ'
  pWS_s : ∀ σ, curNE σ → PB σ 2 < f → (parseWhileStatement f σ).isSome
  pWS_m : ∀ σ r σ', curNE σ → parseWhileStatement f σ = some (r, σ') → MRes σ σ'
  pLS_s : ∀ σ, curNE σ → PB σ 2 < f → (parseLoopStatement f σ).isSome
  pLS_m : ∀ σ r σ', curNE σ → parseLoopStatement f σ = some (r, σ') → MRes σ σ'
  pFoS_s : ∀ σ, curNE σ → PB σ 2 < f → (parseForStatement f σ).isSome
  pFoS_m : ∀ σ r σ', curNE σ → parseForStatement f σ = some (r, σ') → MRes σ σ'
  pFnS_s : ∀ σ, curNE σ → PB σ 2 < f → (parseFunctionStatement f σ).isSome
  pFnS_m : ∀ σ r σ', curNE σ → parseFunctionStatement f σ = some (r, σ') → MRes σ σ'
  pFR_s : ∀ t rt nm σ, curNE σ → PB σ 2 < f → (parseFunctionRest f t rt nm σ).isSome
  pFR_m : ∀ t rt nm σ r σ', curNE σ → parseFunctionRest f t rt nm σ = some (r, σ') →
    MRes σ σ'
  pIfS_s : ∀ σ, curNE σ → PB σ 2 < f → (parseIfStatement f σ).isSome
  pIfS_m : ∀ σ r σ', curNE σ → parseIfStatement f σ = some (r, σ') → MRes σ σ'
  pIfB_s : ∀ σ, curNE σ → PB σ 4 < f → (parseIfBody f σ).isSome
  pIfB_m : ∀ σ r σ', curNE σ → parseIfBody f σ = some (r, σ') → MStrict σ σ'
  pIEL_s : ∀ t c b eis σ, PB σ 5 < f → (parseIfElseLoop f t c b eis σ).isSome
  pIEL_m : ∀ t c b eis σ r σ', parseIfElseLoop f t c b eis σ = some (r, σ') → MRes σ σ'
  pSt_s : ∀ σ, PB σ 6 < f → (parseStatement f σ).isSome
  pSt_m : ∀ σ r σ', parseStatement f σ = some (r, σ') → MRes σ σ'
  pBS_s : ∀ σ, curNE σ → PB σ 2 < f → (parseBlockStatement f σ).isSome
  pBS_m : ∀ σ r σ', curNE σ → parseBlockStatement f σ = some (r, σ') → MStrict σ σ'
  pBL_s : ∀ t acc σ, PB σ 7 < f → (parseBlockLoop f t acc σ).isSome
  pBL_m : ∀ t acc σ r σ', parseBlockLoop f t acc σ = some (r, σ') → MRes σ σ'
  pPL_s : ∀ acc σ, PB σ 7 < f → (parseProgramLoop f acc σ).isSome
  pPL_m : ∀ acc σ r σ', parseProgramLoop f acc σ = some (r, σ') → MRes σ σ'

/-! ## Supporting lemmas: the lexer never constructs LE or GE -/

/-- `lookupIdent` only returns keyword kinds or `IDENT`. -/
theorem lookupIdent_mem (s : Bytes) :
    lookupIdent s ∈ [TokenType.IF, .ELSE, .TYPE, .RETURN, .FUNC, .TYPEOF, .LOOP,
      .WHILE, .FOR, .IN, .BOOL, .NIL, .BREAK, .CONTINUE, .IDENT] := by
  unfold lookupIdent
  by_cases g0 : s = bs "if"
  · rw [if_pos g0]; decide
  rw [if_neg g0]
  by_cases g1 : s = bs "else"
  · rw [if_pos g1]; decide
  rw [if_neg g1]
  by_cases g2 : s = bs "int" ∨ s = bs "string" ∨ s = bs "void" ∨ s = bs "float"
  · rw [if_pos g2]; decide
  rw [if_neg g2]
  by_cases g3 : s = bs "return"
  · rw [if_pos g3]; decide
  rw [if_neg g3]
  by_cases g4 : s = bs "fn" ∨ s = bs "func"
  · rw [if_pos g4]; decide
  rw [if_neg g4]
  by_cases g5 : s = bs "typeof"
  · rw [if_pos g5]; decide
  rw [if_neg g5]
  by_cases g6 : s = bs "loop"
  · rw [if_pos g6]; decide
  rw [if_neg g6]
  by_cases g7 : s = bs "while"
  · rw [if_pos g7]; decide
  rw [if_neg g7]
  by_cases g8 : s = bs "for"
  · rw [if_pos g8]; decide
  rw [if_neg g8]
  by_cases g9 : s = bs "in"
  · rw [if_pos g9]; decide
  rw [if_neg g9]
  by_cases g10 : s = bs "true" ∨ s = bs "false"
  · rw [if_pos g10]; decide
  rw [if_neg g10]
  by_cases g11 : s = bs "null" ∨ s = bs "nil"
  · rw [if_pos g11]; decide
  rw [if_neg g11]
  by_cases g12 : s = bs "break"
  · rw [if_pos g12]; decide
  rw [if_neg g12]
  by_cases g13 : s = bs "continue"
  · rw [if_pos g13]; decide
  rw [if_neg g13]
  decide

/-- `lookupIdent` never returns `LE` or `GE`. -/
theorem lookupIdent_ne_LE_GE (s : Bytes) :
    lookupIdent s ≠ .LE ∧ lookupIdent s ≠ .GE := by
  have h := lookupIdent_mem s
  generalize hx : lookupIdent s = x at h ⊢
  fin_cases h <;> decide

/-- The dispatch switch never constructs an `LE` or `GE` token. -/
theorem nextTokenDispatch_ne_LE_GE (l : Lexer) :
    (nextTokenDispatch l).1.type ≠ .LE ∧ (nextTokenDispatch l).1.type ≠ .GE := by
  unfold nextTokenDispatch
  by_cases h0 : (l.ch == 40) = true
  · rw [if_pos h0]; exact And.intro (fun hx => nomatch hx) (fun hx => nomatch hx)
  rw [if_neg h0]
  by_cases h1 : (l.ch == 41) = true
  · rw [if_pos h1]; exact And.intro (fun hx => nomatch hx) (fun hx => nomatch hx)
  rw [if_neg h1]
  by_cases h2 : (l.ch == 123) = true
  · rw [if_pos h2]; exact And.intro (fun hx => nomatch hx) (fun hx => nomatch hx)
  rw [if_neg h2]
  by_cases h3 : (l.ch == 125) = true
  · rw [if_pos h3]; exact And.intro (fun hx => nomatch hx) (fun hx => nomatch hx)
  rw [if_neg h3]
  by_cases h4 : (l.ch == 44) = true
  · rw [if_pos h4]; exact And.intro (fun hx => nomatch hx) (fun hx => nomatch hx)
  rw [if_neg h4]
  by_cases h5 : (l.ch == 59) = true
  · rw [if_pos h5]; exact And.intro (fun hx => nomatch hx) (fun hx => nomatch hx)
  rw [if_neg h5]
  by_cases h6 : (l.ch == 42) = true
  · rw [if_pos h6]; exact And.intro (fun hx => nomatch hx) (fun hx => nomatch hx)
  rw [if_neg h6]
  by_cases h7 : (l.ch == 45) = true
  · rw [if_pos h7]; exact And.intro (fun hx => nomatch hx) (fun hx => nomatch hx)
  rw [if_neg h7]
  by_cases h8 : (l.ch == 43) = true
  · rw [if_pos h8]; exact And.intro (fun hx => nomatch hx) (fun hx => nomatch hx)
  rw [if_neg h8]
  by_cases h9 : (l.ch == 47) = true
  · rw [if_pos h9]; exact And.intro (fun hx => nomatch hx) (fun hx => nomatch hx)
  rw [if_neg h9]
  by_cases h10 : (l.ch == 60) = true
  · rw [if_pos h10]; exact And.intro (fun hx => nomatch hx) (fun hx => nomatch hx)
  rw [if_neg h10]
  by_cases h11 : (l.ch == 62) = true
  · rw [if_pos h11]; exact And.intro (fun hx => nomatch hx) (fun hx => nomatch hx)
  rw [if_neg h11]
  by_cases h12 : (l.ch == 61) = true
  · rw [if_pos h12]
    by_cases h12p : (peekChar l == 61) = true
    · rw [if_pos h12p]; exact And.intro (fun hx => nomatch hx) (fun hx => nomatch hx)
    · rw [if_neg h12p]; exact And.intro (fun hx => nomatch hx) (fun hx => nomatch hx)
  rw [if_neg h12]
  by_cases h13 : (l.ch == 33) = true
  · rw [if_pos h13]
    by_cases h13p : (peekChar l == 61) = true
    · rw [if_pos h13p]; exact And.intro (fun hx => nomatch hx) (fun hx => nomatch hx)
    · rw [if_neg h13p]; exact And.intro (fun hx => nomatch hx) (fun hx => nomatch hx)
  rw [if_neg h13]
  by_cases h14 : (l.ch == 38) = true
  · rw [if_pos h14]
    by_cases h14p : (peekChar l == 38) = true
    · rw [if_pos h14p]; exact And.intro (fun hx => nomatch hx) (fun hx => nomatch hx)
    · rw [if_neg h14p]; exact And.intro (fun hx => nomatch hx) (fun hx => nomatch hx)
  rw [if_neg h14]
  by_cases h15 : (l.ch == 124) = true
  · rw [if_pos h15]
    by_cases h15p : (peekChar l == 124) = true
    · rw [if_pos h15p]; exact And.intro (fun hx => nomatch hx) (fun hx => nomatch hx)
    · rw [if_neg h15p]; exact And.intro (fun hx => nomatch hx) (fun hx => nomatch hx)
  rw [if_neg h15]
  by_cases h16 : (l.ch == 37) = true
  · rw [if_pos h16]; exact And.intro (fun hx => nomatch hx) (fun hx => nomatch hx)
  rw [if_neg h16]
  by_cases h17 : (l.ch == 34) = true
  · rw [if_pos h17]; exact And.intro (fun hx => nomatch hx) (fun hx => nomatch hx)
  rw [if_neg h17]
  by_cases h18 : (l.ch == 0) = true
  · rw [if_pos h18]; exact And.intro (fun hx => nomatch hx) (fun hx => nomatch hx)
  rw [if_neg h18]
  by_cases h19 : isLetter l.ch = true
  · rw [if_pos h19]
    exact lookupIdent_ne_LE_GE (readIdentifier l).1
  rw [if_neg h19]
  by_cases h20 : isDigit l.ch = true
  · rw [if_pos h20]
    by_cases h20d : 46 ∈ (readNumber l).1
    · rw [if_pos h20d]; exact And.intro (fun hx => nomatch hx) (fun hx => nomatch hx)
    · rw [if_neg h20d]; exact And.intro (fun hx => nomatch hx) (fun hx => nomatch hx)
  rw [if_neg h20]
  exact And.intro (fun hx => nomatch hx) (fun hx => nomatch hx)

/-! ## Claims -/

/-- C10: for every lexer state, `NextToken` never returns a token of kind
`LE` (`<=`) or `GE` (`>=`): `<` and `>` are emitted as single-character
`LT`/`GT` tokens with no peek, so `<=` lexes as `LT` then `ASSIGN` and
`>=` as `GT` then `ASSIGN`, even though the `TokenType` enumeration and
the `precedences` table both include `LE` and `GE`. -/
theorem claim_C10 :
    (∀ l : Lexer, (NextToken l).1.type ≠ .LE ∧ (NextToken l).1.type ≠ .GE) ∧
    tokenize (bs "<=") = [⟨.LT, bs "<"⟩, ⟨.ASSIGN, bs "="⟩, eofTok] ∧
    tokenize (bs ">=") = [⟨.GT, bs ">"⟩, ⟨.ASSIGN, bs "="⟩, eofTok] ∧
    precedences .LE = some LESSGREATER ∧ precedences .GE = some LESSGREATER := by
  refine ⟨fun l => ?_, rfl, rfl, rfl, rfl⟩
  unfold NextToken
  exact nextTokenDispatch_ne_LE_GE _

/-- C2: statement dispatch after a leading type-or-void token is decided
by the next two tokens: `int foo() {}` parses as a `FunctionStatement`
with zero parameters, `int foo = 1;` as a `VariableDeclaration`, and
`int foo` (neither `(` nor `=` follows) attempts the declaration parse
and records exactly the `expectPeek` error
`expected next token to be =, got EOF instead`. -/
theorem claim_C2 :
    runParser (bs "int foo() \x7b\x7d") =
      some (⟨[Stmt.funcS ⟨.TYPE, bs "int"⟩ ⟨.IDENT, bs "foo"⟩ [] ⟨.TYPE, bs "int"⟩
        (Block.mk ⟨.LBRACE, bs "\x7b"⟩ [])]⟩, []) ∧
    runParser (bs "int foo = 1;") =
      some (⟨[Stmt.varDecl ⟨.TYPE, bs "int"⟩ ⟨.IDENT, bs "foo"⟩
        (some (Expr.intLit ⟨.INT, bs "1"⟩ 1))]⟩, []) ∧
    runParser (bs "int foo") =
      some (⟨[Stmt.nilStmt]⟩, [bs "expected next token to be =, got EOF instead"]) :=
  ⟨rfl, rfl, rfl⟩

/-- C3: operator precedence and associativity: `a + b * c` renders as
`(a + (b * c))`, `a < b == c` as `((a < b) == c)`, `-a + b` as
`((-a) + b)`, `123 + 4 * 5` as `(123 + (4 * 5))`; binary operators fold
left-associatively (`1 - 2 - 3` renders `((1 - 2) - 3)`) per the
precedence table `OR < AND < EQUALS < LESSGREATER < SUM < PRODUCT <
PREFIX`. -/
theorem claim_C3 :
    (runParser (bs "a + b * c")).map (fun r => (renderProgram r.1, r.2)) =
      some (bs "(a + (b * c))\n", []) ∧
    (runParser (bs "a < b == c")).map (fun r => (renderProgram r.1, r.2)) =
      some (bs "((a < b) == c)\n", []) ∧
    (runParser (bs "-a + b")).map (fun r => (renderProgram r.1, r.2)) =
      some (bs "((-a) + b)\n", []) ∧
    (runParser (bs "123 + 4 * 5")).map (fun r => (renderProgram r.1, r.2)) =
      some (bs "(123 + (4 * 5))\n", []) ∧
    (runParser (bs "1 - 2 - 3")).map (fun r => (renderProgram r.1, r.2)) =
      some (bs "((1 - 2) - 3)\n", []) ∧
    OR_PREC < AND_PREC ∧ AND_PREC < EQUALS ∧ EQUALS < LESSGREATER ∧
    LESSGREATER < SUM ∧ SUM < PRODUCT ∧ PRODUCT < PREFIX_PREC :=
  ⟨rfl, rfl, rfl, rfl, rfl, by decide, by decide, by decide, by decide, by decide, by decide⟩

/-- C4: parsing `if (a) {1} else if (b) {2} else if (c) {3} else {4}`
produces one `IfStatement` with exactly two `ElseIfs` entries, for `b`
then `c` in source order, and a populated `ElseBlock`; and a plain `else`
terminates the chain: in `if (a) {1} else {2} else if (c) {3}` the first
statement has no `ElseIfs`, its `ElseBlock` is `{2}`, and the trailing
`else if` is not attached (it is reparsed separately, producing two
errors). -/
theorem claim_C4 :
    runParser (bs "if (a) \x7b1\x7d else if (b) \x7b2\x7d else if (c) \x7b3\x7d else \x7b4\x7d") =
      some (⟨[Stmt.ifS ⟨.IF, bs "if"⟩ (Expr.ident ⟨.IDENT, bs "a"⟩ (bs "a"))
        (Block.mk ⟨.LBRACE, bs "\x7b"⟩
          [Stmt.exprStmt ⟨.INT, bs "1"⟩ (Expr.intLit ⟨.INT, bs "1"⟩ 1)])
        [(Expr.ident ⟨.IDENT, bs "b"⟩ (bs "b"),
          Block.mk ⟨.LBRACE, bs "\x7b"⟩
            [Stmt.exprStmt ⟨.INT, bs "2"⟩ (Expr.intLit ⟨.INT, bs "2"⟩ 2)]),
         (Expr.ident ⟨.IDENT, bs "c"⟩ (bs "c"),
          Block.mk ⟨.LBRACE, bs "\x7b"⟩
            [Stmt.exprStmt ⟨.INT, bs "3"⟩ (Expr.intLit ⟨.INT, bs "3"⟩ 3)])]
        (some (Block.mk ⟨.LBRACE, bs "\x7b"⟩
          [Stmt.exprStmt ⟨.INT, bs "4"⟩ (Expr.intLit ⟨.INT, bs "4"⟩ 4)]))]⟩, []) ∧
    (runParser (bs "if (a) \x7b1\x7d else \x7b2\x7d else if (c) \x7b3\x7d")).map
        (fun r => (r.1.statements.head?, r.2.length)) =
      some (some (Stmt.ifS ⟨.IF, bs "if"⟩ (Expr.ident ⟨.IDENT, bs "a"⟩ (bs "a"))
        (Block.mk ⟨.LBRACE, bs "\x7b"⟩
          [Stmt.exprStmt ⟨.INT, bs "1"⟩ (Expr.intLit ⟨.INT, bs "1"⟩ 1)])
        []
        (some (Block.mk ⟨.LBRACE, bs "\x7b"⟩
          [Stmt.exprStmt ⟨.INT, bs "2"⟩ (Expr.intLit ⟨.INT, bs "2"⟩ 2)]))), 2) :=
  ⟨rfl, rfl⟩

/-- C5: `void test() { return; }` parses to a `Program` with exactly one
statement, a `FunctionStatement` named `test` with zero parameters and
return-type token of literal `void`, whose body contains exactly one
`ReturnStatement` with an absent value, and the error list is empty.
(The lexer classifies `void` as a `TYPE` token.) -/
theorem claim_C5 :
    runParser (bs "void test() \x7b return; \x7d") =
      some (⟨[Stmt.funcS ⟨.TYPE, bs "void"⟩ ⟨.IDENT, bs "test"⟩ [] ⟨.TYPE, bs "void"⟩
        (Block.mk ⟨.LBRACE, bs "\x7b"⟩ [Stmt.ret ⟨.RETURN, bs "return"⟩ none])]⟩, []) :=
  rfl

/-- C9: string lexing is verbatim: `"ab"` yields a `STRING` token with
literal `ab`; a backslash in the body is not escape-processed (input
bytes `"a\nb"` yield the four raw body bytes); an unterminated string
(`"ab` with no closing quote) reads to end of input, yields a `STRING`
token with everything after the opening quote, reports no error and
emits no `ILLEGAL` token — the next token is `EOF`. -/
theorem claim_C9 :
    tokenize (bs "\"ab\"") = [⟨.STRING, bs "ab"⟩, eofTok, eofTok, eofTok, eofTok] ∧
    tokenize [34, 97, 92, 110, 98, 34] =
      [⟨.STRING, [97, 92, 110, 98]⟩, eofTok, eofTok, eofTok, eofTok, eofTok, eofTok] ∧
    tokenize (bs "\"ab") = [⟨.STRING, bs "ab"⟩, eofTok, eofTok, eofTok] :=
  ⟨rfl, rfl, rfl⟩

/-- C1 counterexample: the claim says a failed sub-parse (absent child)
makes the parent parse function return an absent node, in particular for
`PrefixExpression.Right`.  But parsing the source `-` returns a non-absent
`ExpressionStatement` containing a `PrefixExpression` whose `Right` is
absent (and no error is recorded): the absent child does not propagate. -/
theorem claim_C1_counterexample :
    runParser (bs "-") =
      some (⟨[Stmt.exprStmt ⟨.EOF, []⟩ (Expr.prefixE ⟨.SUB, bs "-"⟩ (bs "-") none)]⟩, []) :=
  rfl

/-- C1 (amended): `parsePrefixOperatorExpression` and
`parseInfixExpression` always return a non-absent node whenever they
return at all — a failed sub-parse of `Right` is stored as an absent
child instead of failing the parent; likewise `parseDeclarationStatement`
returns a non-absent `VariableDeclaration` with absent `Value` when the
initializer sub-parse fails (source `int x =`), with no error recorded.
Absent children do not propagate for exactly these three fields. -/
theorem claim_C1 :
    (∀ (n : Nat) (σ : PState) (r : Option Expr) (σ' : PState),
      parsePrefixOperatorExpression n σ = some (r, σ') → r ≠ none) ∧
    (∀ (n : Nat) (left : Expr) (σ : PState) (r : Option Expr) (σ' : PState),
      parseInfixExpression n left σ = some (r, σ') → r ≠ none) ∧
    runParser (bs "int x =") =
      some (⟨[Stmt.varDecl ⟨.TYPE, bs "int"⟩ ⟨.IDENT, bs "x"⟩ none]⟩, []) := by
  refine ⟨?_, ?_, rfl⟩
  · intro n σ r σ' h
    cases n with
    | zero => exact nomatch h
    | succ m =>
      intro hr
      subst hr
      unfold parsePrefixOperatorExpression at h
      simp only [] at h
      split at h <;> simp_all
  · intro n left σ r σ' h
    cases n with
    | zero => exact nomatch h
    | succ m =>
      intro hr
      subst hr
      unfold parseInfixExpression at h
      simp only [] at h
      split at h <;> simp_all

/-- Witness for C1: the two universal parts applied at concrete states
(the parsers positioned on `-` and on the `+` of `a + `), where the
sub-parse of `Right` fails and a non-absent node is still returned. -/
theorem claim_C1_witness :
    (some (Expr.prefixE ⟨.SUB, bs "-"⟩ (bs "-") none) : Option Expr) ≠ none ∧
    (some (Expr.infixE ⟨.ADD, bs "+"⟩ (bs "+")
      (Expr.ident ⟨.IDENT, bs "a"⟩ (bs "a")) none) : Option Expr) ≠ none :=
  ⟨claim_C1.1 8 (mkParser (tokenize (bs "-")))
      (some (Expr.prefixE ⟨.SUB, bs "-"⟩ (bs "-") none))
      ⟨[], eofTok, eofTok, eofTok, []⟩ rfl,
   claim_C1.2.1 8 (Expr.ident ⟨.IDENT, bs "a"⟩ (bs "a"))
      (pNext (mkParser (tokenize (bs "a + "))))
      (some (Expr.infixE ⟨.ADD, bs "+"⟩ (bs "+")
        (Expr.ident ⟨.IDENT, bs "a"⟩ (bs "a")) none))
      ⟨[], eofTok, eofTok, eofTok, []⟩ rfl⟩

/-! ## Supporting lemmas: lexer invariant, monotonicity, EOF stability -/

theorem readChar_inv (l : Lexer) : LexInv (readChar l) := ⟨rfl, rfl⟩

theorem readChar_pos {l : Lexer} (h : LexInv l) :
    (readChar l).position = l.position + 1 := by
  simp [readChar, h.1]

theorem readChar_input (l : Lexer) : (readChar l).input = l.input := rfl

theorem skipWhitespaceF_spec : ∀ (n : Nat) (l : Lexer), LexInv l →
    LexInv (skipWhitespaceF n l) ∧ l.position ≤ (skipWhitespaceF n l).position ∧
      (skipWhitespaceF n l).input = l.input
  | 0, l, h => ⟨h, le_refl _, rfl⟩
  | n + 1, l, h => by
    unfold skipWhitespaceF
    by_cases hw : isWS l.ch = true
    · rw [if_pos hw]
      have ih := skipWhitespaceF_spec n (readChar l) (readChar_inv l)
      refine ⟨ih.1, ?_, ih.2.2⟩
      have h1 := readChar_pos h
      omega
    · rw [if_neg hw]; exact ⟨h, le_refl _, rfl⟩

theorem readLettersF_spec : ∀ (n : Nat) (l : Lexer), LexInv l →
    LexInv (readLettersF n l) ∧ l.position ≤ (readLettersF n l).position ∧
      (readLettersF n l).input = l.input
  | 0, l, h => ⟨h, le_refl _, rfl⟩
  | n + 1, l, h => by
    unfold readLettersF
    by_cases hw : isLetter l.ch = true
    · rw [if_pos hw]
      have ih := readLettersF_spec n (readChar l) (readChar_inv l)
      refine ⟨ih.1, ?_, ih.2.2⟩
      have h1 := readChar_pos h
      omega
    · rw [if_neg hw]; exact ⟨h, le_refl _, rfl⟩

theorem readDigitsF_spec : ∀ (n : Nat) (l : Lexer), LexInv l →
    LexInv (readDigitsF n l) ∧ l.position ≤ (readDigitsF n l).position ∧
      (readDigitsF n l).input = l.input
  | 0, l, h => ⟨h, le_refl _, rfl⟩
  | n + 1, l, h => by
    unfold readDigitsF
    by_cases hw : isDigit l.ch = true
    · rw [if_pos hw]
      have ih := readDigitsF_spec n (readChar l) (readChar_inv l)
      refine ⟨ih.1, ?_, ih.2.2⟩
      have h1 := readChar_pos h
      omega
    · rw [if_neg hw]; exact ⟨h, le_refl _, rfl⟩

theorem readStringLoopF_spec : ∀ (n : Nat) (l : Lexer), LexInv l →
    LexInv (readStringLoopF n l) ∧ l.position ≤ (readStringLoopF n l).position ∧
      (readStringLoopF n l).input = l.input
  | 0, l, h => ⟨h, le_refl _, rfl⟩
  | n + 1, l, h => by
    unfold readStringLoopF
    simp only []
    by_cases hw : ((readChar l).ch == 34 || (readChar l).ch == 0) = true
    · rw [if_pos hw]
      have h1 := readChar_pos h
      exact ⟨readChar_inv l, by omega, rfl⟩
    · rw [if_neg hw]
      have ih := readStringLoopF_spec n (readChar l) (readChar_inv l)
      have h1 := readChar_pos h
      exact ⟨ih.1, by omega, by rw [ih.2.2]; rfl⟩


theorem ch_zero_of_exhausted {l : Lexer} (h : LexInv l)
    (he : l.input.length ≤ l.position) : l.ch = 0 := by
  rw [h.2]; exact List.getD_eq_default _ _ he

theorem skipWhitespaceF_id {l : Lexer} (hw : isWS l.ch = false) :
    ∀ n, skipWhitespaceF n l = l
  | 0 => rfl
  | n + 1 => by unfold skipWhitespaceF; rw [if_neg (by simp [hw])]

theorem NextToken_exhausted {l : Lexer} (h : LexInv l)
    (he : l.input.length ≤ l.position) : NextToken l = (eofTok, readChar l) := by
  have hch := ch_zero_of_exhausted h he
  unfold NextToken
  rw [skipWhitespaceF_id (by simp [hch, isWS]) _]
  unfold nextTokenDispatch
  rw [hch]
  simp [eofTok]

theorem lexRun_exhausted : ∀ (n : Nat) (l : Lexer), LexInv l →
    l.input.length ≤ l.position →
    (lexRun l n).1 = eofTok ∧ LexInv (lexRun l n).2 ∧
      (lexRun l n).2.input = l.input ∧
      (lexRun l n).2.input.length ≤ (lexRun l n).2.position ∧
      l.position ≤ (lexRun l n).2.position
  | 0, l, h, he => by
    unfold lexRun
    rw [NextToken_exhausted h he]
    have hpair : ((eofTok, readChar l) : Token × Lexer).2 = readChar l := rfl
    rw [hpair]
    have h1 := readChar_pos h
    have h2 := readChar_input l
    refine ⟨rfl, readChar_inv l, h2, ?_, by omega⟩
    rw [h2]; omega
  | n + 1, l, h, he => by
    unfold lexRun
    rw [NextToken_exhausted h he]
    have hpair : ((eofTok, readChar l) : Token × Lexer).2 = readChar l := rfl
    rw [hpair]
    have h1 := readChar_pos h
    have ih := lexRun_exhausted n (readChar l) (readChar_inv l)
      (by rw [readChar_input]; omega)
    refine ⟨ih.1, ih.2.1, by rw [ih.2.2.1]; exact readChar_input l, ih.2.2.2.1, ?_⟩
    have := ih.2.2.2.2
    omega

theorem nextTokenDispatch_pos (l : Lexer) (h : LexInv l) :
    l.position ≤ (nextTokenDispatch l).2.position := by
  unfold nextTokenDispatch
  by_cases h0 : (l.ch == 40) = true
  · rw [if_pos h0]
    show l.position ≤ (readChar l).position
    rw [readChar_pos h]; omega
  rw [if_neg h0]
  by_cases h1 : (l.ch == 41) = true
  · rw [if_pos h1]
    show l.position ≤ (readChar l).position
    rw [readChar_pos h]; omega
  rw [if_neg h1]
  by_cases h2 : (l.ch == 123) = true
  · rw [if_pos h2]
    show l.position ≤ (readChar l).position
    rw [readChar_pos h]; omega
  rw [if_neg h2]
  by_cases h3 : (l.ch == 125) = true
  · rw [if_pos h3]
    show l.position ≤ (readChar l).position
    rw [readChar_pos h]; omega
  rw [if_neg h3]
  by_cases h4 : (l.ch == 44) = true
  · rw [if_pos h4]
    show l.position ≤ (readChar l).position
    rw [readChar_pos h]; omega
  rw [if_neg h4]
  by_cases h5 : (l.ch == 59) = true
  · rw [if_pos h5]
    show l.position ≤ (readChar l).position
    rw [readChar_pos h]; omega
  rw [if_neg h5]
  by_cases h6 : (l.ch == 42) = true
  · rw [if_pos h6]
    show l.position ≤ (readChar l).position
    rw [readChar_pos h]; omega
  rw [if_neg h6]
  by_cases h7 : (l.ch == 45) = true
  · rw [if_pos h7]
    show l.position ≤ (readChar l).position
    rw [readChar_pos h]; omega
  rw [if_neg h7]
  by_cases h8 : (l.ch == 43) = true
  · rw [if_pos h8]
    show l.position ≤ (readChar l).position
    rw [readChar_pos h]; omega
  rw [if_neg h8]
  by_cases h9 : (l.ch == 47) = true
  · rw [if_pos h9]
    show l.position ≤ (readChar l).position
    rw [readChar_pos h]; omega
  rw [if_neg h9]
  by_cases h10 : (l.ch == 60) = true
  · rw [if_pos h10]
    show l.position ≤ (readChar l).position
    rw [readChar_pos h]; omega
  rw [if_neg h10]
  by_cases h11 : (l.ch == 62) = true
  · rw [if_pos h11]
    show l.position ≤ (readChar l).position
    rw [readChar_pos h]; omega
  rw [if_neg h11]
  by_cases h12 : (l.ch == 61) = true
  · rw [if_pos h12]
    by_cases h12p : (peekChar l == 61) = true
    · rw [if_pos h12p]
      show l.position ≤ (readChar (readChar l)).position
      have a1 := readChar_pos h
      have a2 := readChar_pos (readChar_inv l)
      omega
    · rw [if_neg h12p]
      show l.position ≤ (readChar l).position
      rw [readChar_pos h]; omega
  rw [if_neg h12]
  by_cases h13 : (l.ch == 33) = true
  · rw [if_pos h13]
    by_cases h13p : (peekChar l == 61) = true
    · rw [if_pos h13p]
      show l.position ≤ (readChar (readChar l)).position
      have a1 := readChar_pos h
      have a2 := readChar_pos (readChar_inv l)
      omega
    · rw [if_neg h13p]
      show l.position ≤ (readChar l).position
      rw [readChar_pos h]; omega
  rw [if_neg h13]
  by_cases h14 : (l.ch == 38) = true
  · rw [if_pos h14]
    by_cases h14p : (peekChar l == 38) = true
    · rw [if_pos h14p]
      show l.position ≤ (readChar (readChar l)).position
      have a1 := readChar_pos h
      have a2 := readChar_pos (readChar_inv l)
      omega
    · rw [if_neg h14p]
      show l.position ≤ (readChar l).position
      rw [readChar_pos h]; omega
  rw [if_neg h14]
  by_cases h15 : (l.ch == 124) = true
  · rw [if_pos h15]
    by_cases h15p : (peekChar l == 124) = true
    · rw [if_pos h15p]
      show l.position ≤ (readChar (readChar l)).position
      have a1 := readChar_pos h
      have a2 := readChar_pos (readChar_inv l)
      omega
    · rw [if_neg h15p]
      show l.position ≤ (readChar l).position
      rw [readChar_pos h]; omega
  rw [if_neg h15]
  by_cases h16 : (l.ch == 37) = true
  · rw [if_pos h16]
    show l.position ≤ (readChar l).position
    rw [readChar_pos h]; omega
  rw [if_neg h16]
  by_cases h17 : (l.ch == 34) = true
  · rw [if_pos h17]
    have hs := readStringLoopF_spec (l.input.length + 1) l h
    have hc := readChar_pos hs.1
    show l.position ≤ (readChar (readStringLoopF (l.input.length + 1) l)).position
    omega
  rw [if_neg h17]
  by_cases h18 : (l.ch == 0) = true
  · rw [if_pos h18]
    show l.position ≤ (readChar l).position
    rw [readChar_pos h]; omega
  rw [if_neg h18]
  by_cases h19 : isLetter l.ch = true
  · rw [if_pos h19]
    have hs := readLettersF_spec (l.input.length + 1) l h
    show l.position ≤ (readLettersF (l.input.length + 1) l).position
    omega
  rw [if_neg h19]
  by_cases h20 : isDigit l.ch = true
  · rw [if_pos h20]
    have hs := readDigitsF_spec (l.input.length + 1) l h
    have hc := readChar_pos hs.1
    have hs2 := readDigitsF_spec ((readDigitsF (l.input.length + 1) l).input.length + 1)
      (readChar (readDigitsF (l.input.length + 1) l)) (readChar_inv _)
    by_cases hf : 46 ∈ (readNumber l).1
    · rw [if_pos hf]
      show l.position ≤ (if ((readDigitsF (l.input.length + 1) l).ch == 46) = true
        then readDigitsF ((readDigitsF (l.input.length + 1) l).input.length + 1)
          (readChar (readDigitsF (l.input.length + 1) l))
        else readDigitsF (l.input.length + 1) l).position
      by_cases h46 : ((readDigitsF (l.input.length + 1) l).ch == 46) = true
      · rw [if_pos h46]; omega
      · rw [if_neg h46]; omega
    · rw [if_neg hf]
      show l.position ≤ (if ((readDigitsF (l.input.length + 1) l).ch == 46) = true
        then readDigitsF ((readDigitsF (l.input.length + 1) l).input.length + 1)
          (readChar (readDigitsF (l.input.length + 1) l))
        else readDigitsF (l.input.length + 1) l).position
      by_cases h46 : ((readDigitsF (l.input.length + 1) l).ch == 46) = true
      · rw [if_pos h46]; omega
      · rw [if_neg h46]; omega
  rw [if_neg h20]
  show l.position ≤ (readChar l).position
  rw [readChar_pos h]; omega

theorem NextToken_pos {l : Lexer} (h : LexInv l) :
    l.position ≤ (NextToken l).2.position := by
  unfold NextToken
  have hs := skipWhitespaceF_spec (l.input.length + 1) l h
  have hd := nextTokenDispatch_pos _ hs.1
  omega

/-- C8: lexer EOF idempotence.  Once the input is exhausted
(`input.length ≤ position`, in a reachable state), every subsequent
`NextToken` call returns the `EOF` token with empty literal, for every
number of repeated calls, and the position never decreases; moreover from
any reachable state a `NextToken` call never moves the position
backwards. -/
theorem claim_C8 :
    (∀ l : Lexer, LexInv l → l.input.length ≤ l.position →
      ∀ n : Nat, (lexRun l n).1 = eofTok ∧ l.position ≤ (lexRun l n).2.position) ∧
    (∀ l : Lexer, LexInv l → l.position ≤ (NextToken l).2.position) := by
  constructor
  · intro l h he n
    have hr := lexRun_exhausted n l h he
    exact ⟨hr.1, hr.2.2.2.2⟩
  · intro l h
    exact NextToken_pos h

/-- Witness for C8: the exhausted lexer state reached after lexing the
one-byte input `a`, probed three calls deep. -/
theorem claim_C8_witness :
    ((lexRun ⟨bs "a", 1, 2, 0⟩ 2).1 = eofTok ∧
      (Lexer.mk (bs "a") 1 2 0).position ≤ (lexRun ⟨bs "a", 1, 2, 0⟩ 2).2.position) ∧
    (Lexer.mk (bs "a") 1 2 0).position ≤ (NextToken ⟨bs "a", 1, 2, 0⟩).2.position :=
  ⟨claim_C8.1 ⟨bs "a", 1, 2, 0⟩ ⟨rfl, rfl⟩ (by decide) 2,
   claim_C8.2 ⟨bs "a", 1, 2, 0⟩ ⟨rfl, rfl⟩⟩

/-! ## Termination and error accumulation of the parser

The measure `muP` never increases along `pNext`, and strictly decreases
when the current token is not `EOF`; by strong induction on fuel every
parse function satisfies its sufficiency and monotonicity specification
(`PSpecS`), so the fuel `parseFuel` is always enough. -/

theorem wTok_le_one (t : Token) : wTok t ≤ 1 := by
  unfold wTok; split <;> omega

theorem muP_pNext_le (σ : PState) : muP (pNext σ) ≤ muP σ := by
  unfold pNext muP popTok
  cases σ.toks with
  | nil =>
    have h1 := wTok_le_one σ.curToken
    have h2 : wTok eofTok = 0 := rfl
    simp only [List.length_nil]
    simp only [h2]
    omega
  | cons t ts =>
    have h1 := wTok_le_one t
    have h2 := wTok_le_one σ.curToken
    simp only [List.length_cons]
    omega

theorem muP_pNext_lt {σ : PState} (h : curNE σ) : muP (pNext σ) < muP σ := by
  have hw : wTok σ.curToken = 1 := by unfold wTok; rw [if_neg h]
  unfold pNext muP popTok
  cases σ.toks with
  | nil =>
    have h2 : wTok eofTok = 0 := rfl
    simp only [List.length_nil]
    simp only [h2]
    omega
  | cons t ts =>
    have h1 := wTok_le_one t
    simp only [List.length_cons]
    omega

theorem pNext_errors (σ : PState) : (pNext σ).errors = σ.errors := rfl

theorem addError_muP (σ : PState) (m : Bytes) : muP (σ.addError m) = muP σ := rfl

theorem addError_sEq (σ : PState) (m : Bytes) : sEq σ (σ.addError m) :=
  ⟨rfl, rfl, rfl, rfl⟩

theorem addError_appends (σ : PState) (m : Bytes) :
    σ.errors <+: (σ.addError m).errors := ⟨[m], rfl⟩

theorem sEq_refl (σ : PState) : sEq σ σ := ⟨rfl, rfl, rfl, rfl⟩

theorem sEq_trans {a b c : PState} (h1 : sEq a b) (h2 : sEq b c) : sEq a c :=
  ⟨h2.1.trans h1.1, h2.2.1.trans h1.2.1, h2.2.2.1.trans h1.2.2.1, h2.2.2.2.trans h1.2.2.2⟩

theorem sEq_muP {a b : PState} (h : sEq a b) : muP b = muP a := by
  unfold muP
  rw [h.1, h.2.1, h.2.2.1, h.2.2.2]

theorem MRes_refl (σ : PState) : MRes σ σ :=
  ⟨le_refl _, fun _ => sEq_refl σ, List.prefix_rfl⟩

theorem MStrict.toMRes {a b : PState} (h : MStrict a b) : MRes a b :=
  ⟨le_of_lt h.1, fun he => absurd he (by have := h.1; omega), h.2⟩

theorem MRes.toMWeak {a b : PState} (h : MRes a b) : MWeak a b := ⟨h.1, h.2.2⟩

theorem MRes_of_sEq {a b : PState} (h : sEq a b) (hp : a.errors <+: b.errors) :
    MRes a b := ⟨le_of_eq (sEq_muP h), fun _ => h, hp⟩

theorem MRes_trans {a b c : PState} (h1 : MRes a b) (h2 : MRes b c) : MRes a c := by
  refine ⟨le_trans h2.1 h1.1, ?_, h1.2.2.trans h2.2.2⟩
  intro he
  have hb : muP b = muP a := le_antisymm h1.1 (by have := h2.1; omega)
  exact sEq_trans (h1.2.1 hb) (h2.2.1 (by omega))

theorem MWeak_trans {a b c : PState} (h1 : MWeak a b) (h2 : MWeak b c) : MWeak a c :=
  ⟨le_trans h2.1 h1.1, h1.2.trans h2.2⟩

theorem MStrict_MWeak_trans {a b c : PState} (h1 : MStrict a b) (h2 : MWeak b c) :
    MStrict a c := ⟨lt_of_le_of_lt h2.1 h1.1, h1.2.trans h2.2⟩

theorem MWeak_MStrict_trans {a b c : PState} (h1 : MWeak a b) (h2 : MStrict b c) :
    MStrict a c := ⟨lt_of_lt_of_le h2.1 h1.1, h1.2.trans h2.2⟩

theorem MStrict_MRes_trans {a b c : PState} (h1 : MStrict a b) (h2 : MRes b c) :
    MStrict a c := ⟨lt_of_le_of_lt h2.1 h1.1, h1.2.trans h2.2.2⟩

theorem MRes_MStrict_trans {a b c : PState} (h1 : MRes a b) (h2 : MStrict b c) :
    MStrict a c := ⟨lt_of_lt_of_le h2.1 h1.1, h1.2.2.trans h2.2⟩

theorem MRes_addError {a b : PState} (h : MRes a b) (m : Bytes) :
    MRes a (b.addError m) :=
  MRes_trans h (MRes_of_sEq (addError_sEq b m) (addError_appends b m))

theorem pNext_MWeak (σ : PState) : MWeak σ (pNext σ) :=
  ⟨muP_pNext_le σ, by rw [pNext_errors]⟩

theorem pNext_MStrict {σ : PState} (h : curNE σ) : MStrict σ (pNext σ) :=
  ⟨muP_pNext_lt h, by rw [pNext_errors]⟩

theorem pNext_cur (σ : PState) : (pNext σ).curToken = σ.peekToken := rfl

theorem expectPeek_true {t : TokenType} {σ : PState} {σ' : PState}
    (h : expectPeek t σ = (true, σ')) : σ' = pNext σ ∧ σ.peekToken.type = t := by
  unfold expectPeek at h
  split at h
  · exact ⟨(Prod.mk.injEq _ _ _ _ ▸ h).2.symm ▸ rfl, by assumption⟩
  · exact absurd (Prod.mk.injEq _ _ _ _ ▸ h).1 (by simp)

theorem expectPeek_false {t : TokenType} {σ : PState} {σ' : PState}
    (h : expectPeek t σ = (false, σ')) :
    σ' = σ.addError (expectPeekMsg t σ.peekToken.type) := by
  unfold expectPeek at h
  split at h
  · exact absurd (Prod.mk.injEq _ _ _ _ ▸ h).1 (by simp)
  · exact ((Prod.mk.injEq _ _ _ _ ▸ h).2).symm

theorem expectPeek_MWeak (t : TokenType) (σ : PState) :
    MWeak σ (expectPeek t σ).2 := by
  unfold expectPeek
  split
  · exact pNext_MWeak σ
  · exact ⟨le_of_eq (addError_muP σ _), addError_appends σ _⟩

theorem expectPeek_true_MStrict {t : TokenType} {σ σ' : PState} (hc : curNE σ)
    (h : expectPeek t σ = (true, σ')) : MStrict σ σ' := by
  rw [(expectPeek_true h).1]
  exact pNext_MStrict hc

theorem expectPeek_false_MRes {t : TokenType} {σ σ' : PState}
    (h : expectPeek t σ = (false, σ')) : MRes σ σ' := by
  rw [expectPeek_false h]
  exact MRes_of_sEq (addError_sEq σ _) (addError_appends σ _)

theorem sWT_mono : ∀ (f : Nat) (σ σ' : PState),
    skipWhitespaceTokens f σ = some σ' → MRes σ σ'
  | 0, σ, σ', h => nomatch h
  | f + 1, σ, σ', h => by
    unfold skipWhitespaceTokens at h
    simp only [] at h
    split at h
    · have hne : curNE σ := by
        intro hc
        rename_i hil
        rw [hc] at hil
        exact absurd hil.1 (by simp)
      have hst := pNext_MStrict hne
      split at h
      · cases h
        exact hst.toMRes
      · exact (MStrict_MRes_trans hst (sWT_mono f _ _ h)).toMRes
    · cases h
      exact MRes_refl _

theorem sWT_suff : ∀ (f : Nat) (σ : PState),
    PB σ 1 < f → (skipWhitespaceTokens f σ).isSome
  | 0, σ, h => absurd h (by unfold PB; omega)
  | f + 1, σ, h => by
    unfold skipWhitespaceTokens
    simp only []
    split
    · have hne : curNE σ := by
        intro hc
        rename_i hil
        rw [hc] at hil
        exact absurd hil.1 (by simp)
      have hst := muP_pNext_lt hne
      split
      · rfl
      · exact sWT_suff f _ (by unfold PB at h ⊢; omega)
    · rfl

theorem parseParameter_MWeak (σ : PState) : MWeak σ (parseParameter σ).2 := by
  unfold parseParameter
  split
  · rcases hep : expectPeek .IDENT σ with ⟨b, σ1⟩
    have hw := expectPeek_MWeak TokenType.IDENT σ
    rw [hep] at hw
    cases b
    · exact hw
    · exact hw
  · exact ⟨le_of_eq (addError_muP σ _), addError_appends σ _⟩

theorem pFPLoop_mono : ∀ (f : Nat) (params : List Param) (σ : PState) r σ',
    parseFPLoop f params σ = some (r, σ') → MWeak σ σ'
  | 0, _, _, _, _, h => nomatch h
  | f + 1, params, σ, r, σ', h => by
    unfold parseFPLoop at h
    simp only [] at h
    split at h
    · have h1 := pNext_MWeak σ
      have h2 := pNext_MWeak (pNext σ)
      have h3 := parseParameter_MWeak (pNext (pNext σ))
      split at h
      · exact MWeak_trans h1 (MWeak_trans h2 (MWeak_trans
          (by rename_i heq; rw [heq] at h3; exact h3)
          (pFPLoop_mono f _ _ _ _ h)))
      · exact MWeak_trans h1 (MWeak_trans h2 (MWeak_trans
          (by rename_i heq; rw [heq] at h3; exact h3)
          (pFPLoop_mono f _ _ _ _ h)))
    · rcases hep : expectPeek .RPAREN σ with ⟨b, σ1⟩
      rw [hep] at h
      have hw := expectPeek_MWeak TokenType.RPAREN σ
      rw [hep] at hw
      cases b <;> simp only [] at h <;> cases h <;> exact hw

theorem pFPLoop_suff : ∀ (f : Nat) (params : List Param) (σ : PState),
    PB σ 2 < f → (parseFPLoop f params σ).isSome
  | 0, _, σ, h => absurd h (by unfold PB; omega)
  | f + 1, params, σ, h => by
    unfold parseFPLoop
    simp only []
    split
    · rename_i hcomma
      have h1 := muP_pNext_le σ
      have hc1 : curNE (pNext σ) := by
        unfold curNE
        rw [pNext_cur, hcomma]
        simp
      have h2 := muP_pNext_lt hc1
      split
      · rename_i p σ3 heq
        have h3 := parseParameter_MWeak (pNext (pNext σ))
        rw [heq] at h3
        exact pFPLoop_suff f _ σ3
          (by unfold PB at h ⊢
              have h4 : muP σ3 ≤ muP (pNext (pNext σ)) := h3.1
              omega)
      · rename_i σ3 heq
        have h3 := parseParameter_MWeak (pNext (pNext σ))
        rw [heq] at h3
        exact pFPLoop_suff f _ σ3
          (by unfold PB at h ⊢
              have h4 : muP σ3 ≤ muP (pNext (pNext σ)) := h3.1
              omega)
    · rcases hep : expectPeek .RPAREN σ with ⟨b, σ1⟩
      cases b <;> rfl

theorem pFP_mono : ∀ (f : Nat) (σ : PState) (r : List Param) (σ' : PState),
    parseFunctionParameters f σ = some (r, σ') → MWeak σ σ'
  | 0, _, _, _, h => nomatch h
  | f + 1, σ, r, σ', h => by
    unfold parseFunctionParameters at h
    simp only [] at h
    split at h
    · cases h
      exact pNext_MWeak σ
    · split at h <;>
        (rename_i param σ2 heq
         have h3 := parseParameter_MWeak (pNext σ)
         rw [heq] at h3
         simp only [Option.map_eq_some'] at h
         rcases h with ⟨⟨r2, σ2'⟩, hloop, hgm⟩
         cases hgm
         exact MWeak_trans (pNext_MWeak σ) (MWeak_trans h3 (pFPLoop_mono f _ _ _ _ hloop)))

theorem pFP_suff : ∀ (f : Nat) (σ : PState), curNE σ →
    PB σ 2 < f → (parseFunctionParameters f σ).isSome
  | 0, _, _, h => absurd h (by unfold PB; omega)
  | f + 1, σ, hc, h => by
    unfold parseFunctionParameters
    simp only []
    split
    · rfl
    · have h1 := muP_pNext_lt hc
      split
      · rename_i param σ2 heq
        have h3 := parseParameter_MWeak (pNext σ)
        rw [heq] at h3
        have hs := pFPLoop_suff f [param] σ2
          (by unfold PB at h ⊢
              have h4 : muP σ2 ≤ muP (pNext σ) := h3.1
              omega)
        obtain ⟨v, hv⟩ := Option.isSome_iff_exists.mp hs
        rw [hv]
        rfl
      · rename_i σ2 heq
        have h3 := parseParameter_MWeak (pNext σ)
        rw [heq] at h3
        have hs := pFPLoop_suff f [] σ2
          (by unfold PB at h ⊢
              have h4 : muP σ2 ≤ muP (pNext σ) := h3.1
              omega)
        obtain ⟨v, hv⟩ := Option.isSome_iff_exists.mp hs
        rw [hv]
        rfl

theorem pPOE_step_s (f : Nat) (IH : ∀ g, g < f → PSpecS g) :
    ∀ σ, curNE σ → PB σ 2 < f → (parsePrefixOperatorExpression f σ).isSome := by
  intro σ hc hb
  match f with
  | 0 => exact absurd hb (by unfold PB; omega)
  | m + 1 =>
    unfold parsePrefixOperatorExpression
    simp only []
    have hμ := muP_pNext_lt hc
    have hs := (IH m (by omega)).pE_s PREFIX_PREC (pNext σ)
      (by unfold PB at hb ⊢; omega)
    obtain ⟨v, hv⟩ := Option.isSome_iff_exists.mp hs
    rcases v with ⟨right, σ2⟩
    rw [hv]
    rfl

theorem pPOE_step_m (f : Nat) (IH : ∀ g, g < f → PSpecS g) :
    ∀ σ r σ', curNE σ → parsePrefixOperatorExpression f σ = some (r, σ') →
      MStrict σ σ' := by
  intro σ r σ' hc h
  match f with
  | 0 => exact nomatch h
  | m + 1 =>
    unfold parsePrefixOperatorExpression at h
    simp only [] at h
    split at h
    · exact nomatch h
    · rename_i right σ2 heq
      cases h
      exact MStrict_MRes_trans (pNext_MStrict hc) ((IH m (by omega)).pE_m _ _ _ _ heq)

theorem pIE_step_s (f : Nat) (IH : ∀ g, g < f → PSpecS g) :
    ∀ e σ, curNE σ → PB σ 2 < f → (parseInfixExpression f e σ).isSome := by
  intro e σ hc hb
  match f with
  | 0 => exact absurd hb (by unfold PB; omega)
  | m + 1 =>
    unfold parseInfixExpression
    simp only []
    have hμ := muP_pNext_lt hc
    have hs := (IH m (by omega)).pE_s (curPrecedence σ) (pNext σ)
      (by unfold PB at hb ⊢; omega)
    obtain ⟨v, hv⟩ := Option.isSome_iff_exists.mp hs
    rcases v with ⟨right, σ2⟩
    rw [hv]
    rfl

theorem pIE_step_m (f : Nat) (IH : ∀ g, g < f → PSpecS g) :
    ∀ e σ r σ', curNE σ → parseInfixExpression f e σ = some (r, σ') →
      MStrict σ σ' := by
  intro e σ r σ' hc h
  match f with
  | 0 => exact nomatch h
  | m + 1 =>
    unfold parseInfixExpression at h
    simp only [] at h
    split at h
    · exact nomatch h
    · rename_i right σ2 heq
      cases h
      exact MStrict_MRes_trans (pNext_MStrict hc) ((IH m (by omega)).pE_m _ _ _ _ heq)

theorem expectPeek_pair_MWeak {t : TokenType} {σ : PState} {b : Bool} {σ1 : PState}
    (h : expectPeek t σ = (b, σ1)) : MWeak σ σ1 := by
  have hw := expectPeek_MWeak t σ
  rw [h] at hw
  exact hw

theorem pTE_step_s (f : Nat) (IH : ∀ g, g < f → PSpecS g) :
    ∀ σ, curNE σ → PB σ 2 < f → (parseTypeofExpression f σ).isSome := by
  intro σ hc hb
  match f with
  | 0 => exact absurd hb (by unfold PB; omega)
  | m + 1 =>
    unfold parseTypeofExpression
    simp only []
    split
    · rfl
    · rename_i σ1 heq
      have h1 := (expectPeek_true_MStrict hc heq).1
      have h2 := muP_pNext_le σ1
      have hs := (IH m (by omega)).pE_s LOWEST (pNext σ1)
        (by unfold PB at hb ⊢; omega)
      split
      · rename_i hv
        rw [hv] at hs
        exact absurd hs (by simp)
      · split <;> rfl

theorem pTE_step_m (f : Nat) (IH : ∀ g, g < f → PSpecS g) :
    ∀ σ r σ', curNE σ → parseTypeofExpression f σ = some (r, σ') → MRes σ σ' := by
  intro σ r σ' hc h
  match f with
  | 0 => exact nomatch h
  | m + 1 =>
    unfold parseTypeofExpression at h
    simp only [] at h
    split at h
    · rename_i σ1 heq
      cases h
      exact expectPeek_false_MRes heq
    · rename_i σ1 heq
      have h1 := expectPeek_true_MStrict hc heq
      have h2 := pNext_MWeak σ1
      split at h
      · exact nomatch h
      · rename_i e σ3 heq2
        have h3 := (IH m (by omega)).pE_m _ _ _ _ heq2
        split at h <;>
          (rename_i σ4 heq3
           cases h
           exact (MStrict_MWeak_trans (MStrict_MRes_trans (MStrict_MWeak_trans h1 h2) h3)
             (expectPeek_pair_MWeak heq3)).toMRes)

theorem pRS_step_s (f : Nat) (IH : ∀ g, g < f → PSpecS g) :
    ∀ σ, curNE σ → PB σ 2 < f → (parseReturnStatement f σ).isSome := by
  intro σ hc hb
  match f with
  | 0 => exact absurd hb (by unfold PB; omega)
  | m + 1 =>
    unfold parseReturnStatement
    simp only []
    split
    · rfl
    · split
      · rfl
      · have hμ := muP_pNext_lt hc
        have hs := (IH m (by omega)).pE_s LOWEST (pNext σ)
          (by unfold PB at hb ⊢; omega)
        obtain ⟨v, hv⟩ := Option.isSome_iff_exists.mp hs
        rcases v with ⟨e, σ2⟩
        rw [hv]
        rfl

theorem pRS_step_m (f : Nat) (IH : ∀ g, g < f → PSpecS g) :
    ∀ σ r σ', curNE σ → parseReturnStatement f σ = some (r, σ') → MRes σ σ' := by
  intro σ r σ' hc h
  match f with
  | 0 => exact nomatch h
  | m + 1 =>
    unfold parseReturnStatement at h
    simp only [] at h
    split at h
    · cases h
      exact (pNext_MStrict hc).toMRes
    · split at h
      · cases h
        exact MRes_refl _
      · split at h
        · exact nomatch h
        · rename_i v σ2 heq
          have h1 := pNext_MStrict hc
          have h2 := (IH m (by omega)).pE_m _ _ _ _ heq
          have hst := MStrict_MRes_trans h1 h2
          cases h
          split
          · exact (MStrict_MWeak_trans hst (pNext_MWeak σ2)).toMRes
          · exact hst.toMRes

theorem pDS_step_s (f : Nat) (IH : ∀ g, g < f → PSpecS g) :
    ∀ σ, curNE σ → PB σ 2 < f → (parseDeclarationStatement f σ).isSome := by
  intro σ hc hb
  match f with
  | 0 => exact absurd hb (by unfold PB; omega)
  | m + 1 =>
    unfold parseDeclarationStatement
    simp only []
    split
    · rfl
    · split
      · rfl
      · rename_i σ1 heq
        have h1 := (expectPeek_true_MStrict hc heq).1
        split
        · rfl
        · rename_i σ2 heq2
          have h2 := (expectPeek_pair_MWeak heq2).1
          have h3 := muP_pNext_le σ2
          have hs := (IH m (by omega)).pE_s LOWEST (pNext σ2)
            (by unfold PB at hb ⊢; omega)
          split
          · rename_i hv
            rw [hv] at hs
            exact absurd hs (by simp)
          · rfl

theorem pDS_step_m (f : Nat) (IH : ∀ g, g < f → PSpecS g) :
    ∀ σ r σ', curNE σ → parseDeclarationStatement f σ = some (r, σ') → MRes σ σ' := by
  intro σ r σ' hc h
  match f with
  | 0 => exact nomatch h
  | m + 1 =>
    unfold parseDeclarationStatement at h
    simp only [] at h
    split at h
    · cases h
      exact MRes_of_sEq (addError_sEq σ _) (addError_appends σ _)
    · split at h
      · rename_i σ1 heq
        cases h
        exact expectPeek_false_MRes heq
      · rename_i σ1 heq
        have h1 := expectPeek_true_MStrict hc heq
        split at h
        · rename_i σ2 heq2
          cases h
          exact (MStrict_MWeak_trans h1 (expectPeek_pair_MWeak heq2)).toMRes
        · rename_i σ2 heq2
          have h2 := expectPeek_pair_MWeak heq2
          have h3 := pNext_MWeak σ2
          split at h
          · exact nomatch h
          · rename_i value σ4 heq3
            have h4 := (IH m (by omega)).pE_m _ _ _ _ heq3
            cases h
            have hst := MStrict_MRes_trans
              (MStrict_MWeak_trans (MStrict_MWeak_trans h1 h2) h3) h4
            split
            · exact (MStrict_MWeak_trans hst (pNext_MWeak σ4)).toMRes
            · exact hst.toMRes

theorem pWS_step_s (f : Nat) (IH : ∀ g, g < f → PSpecS g) :
    ∀ σ, curNE σ → PB σ 2 < f → (parseWhileStatement f σ).isSome := by
  intro σ hc hb
  match f with
  | 0 => exact absurd hb (by unfold PB; omega)
  | m + 1 =>
    unfold parseWhileStatement
    simp only []
    split
    · rfl
    · rename_i σ1 heq
      have h1 := (expectPeek_true_MStrict hc heq).1
      have h2 := muP_pNext_le σ1
      have hs := (IH m (by omega)).pE_s LOWEST (pNext σ1)
        (by unfold PB at hb ⊢; omega)
      split
      · rename_i hv
        rw [hv] at hs
        exact absurd hs (by simp)
      · rfl
      · rename_i cond σ3 hv
        have h3 := (IH m (by omega)).pE_m _ _ _ _ hv
        split
        · rfl
        · rename_i σ4 heq2
          split
          · rfl
          · rename_i σ5 heq3
            have h4 := expectPeek_pair_MWeak heq2
            have h5 := expectPeek_pair_MWeak heq3
            have hc5 : curNE σ5 := by
              unfold curNE
              rw [(expectPeek_true heq3).1, pNext_cur, (expectPeek_true heq3).2]
              simp
            have hs2 := (IH m (by omega)).pBS_s σ5 hc5
              (by unfold PB at hb ⊢
                  have a1 := h3.1
                  have a2 := h4.1
                  have a3 := h5.1
                  omega)
            split
            · rename_i hv2
              rw [hv2] at hs2
              exact absurd hs2 (by simp)
            · rfl

theorem pWS_step_m (f : Nat) (IH : ∀ g, g < f → PSpecS g) :
    ∀ σ r σ', curNE σ → parseWhileStatement f σ = some (r, σ') → MRes σ σ' := by
  intro σ r σ' hc h
  match f with
  | 0 => exact nomatch h
  | m + 1 =>
    unfold parseWhileStatement at h
    simp only [] at h
    split at h
    · rename_i σ1 heq
      cases h
      exact MRes_addError (expectPeek_false_MRes heq) _
    · rename_i σ1 heq
      have h1 := expectPeek_true_MStrict hc heq
      have h2 := pNext_MWeak σ1
      have hst0 := MStrict_MWeak_trans h1 h2
      split at h
      · exact nomatch h
      · rename_i σ3 hv
        have h3 := (IH m (by omega)).pE_m _ _ _ _ hv
        cases h
        exact (MStrict_MRes_trans hst0 h3).toMRes
      · rename_i cond σ3 hv
        have h3 := (IH m (by omega)).pE_m _ _ _ _ hv
        have hst : MStrict σ σ3 := MStrict_MRes_trans hst0 h3
        split at h
        · rename_i σ4 heq2
          cases h
          exact (MStrict_MWeak_trans hst
            (MWeak_trans (expectPeek_pair_MWeak heq2)
              ⟨le_of_eq (addError_muP _ _), addError_appends _ _⟩)).toMRes
        · rename_i σ4 heq2
          split at h
          · rename_i σ5 heq3
            cases h
            exact (MStrict_MWeak_trans hst
              (MWeak_trans (expectPeek_pair_MWeak heq2)
                (MWeak_trans (expectPeek_pair_MWeak heq3)
                  ⟨le_of_eq (addError_muP _ _), addError_appends _ _⟩))).toMRes
          · rename_i σ5 heq3
            split at h
            · exact nomatch h
            · rename_i blk σ6 heq4
              cases h
              have hc5 : curNE σ5 := by
                unfold curNE
                rw [(expectPeek_true heq3).1, pNext_cur, (expectPeek_true heq3).2]
                simp
              have h6 := ((IH m (by omega)).pBS_m σ5 _ _ hc5 heq4).toMRes
              exact (MStrict_MRes_trans (MStrict_MWeak_trans
                (MStrict_MWeak_trans hst (expectPeek_pair_MWeak heq2))
                (expectPeek_pair_MWeak heq3)) h6).toMRes

theorem pLS_step_s (f : Nat) (IH : ∀ g, g < f → PSpecS g) :
    ∀ σ, curNE σ → PB σ 2 < f → (parseLoopStatement f σ).isSome := by
  intro σ hc hb
  match f with
  | 0 => exact absurd hb (by unfold PB; omega)
  | m + 1 =>
    unfold parseLoopStatement
    simp only []
    split
    · rfl
    · rename_i σ1 heq
      have h1 := (expectPeek_true_MStrict hc heq).1
      have hc1 : curNE σ1 := by
        unfold curNE
        rw [(expectPeek_true heq).1, pNext_cur, (expectPeek_true heq).2]
        simp
      have hs := (IH m (by omega)).pBS_s σ1 hc1
        (by unfold PB at hb ⊢; omega)
      split
      · rename_i hv
        rw [hv] at hs
        exact absurd hs (by simp)
      · rfl

theorem pLS_step_m (f : Nat) (IH : ∀ g, g < f → PSpecS g) :
    ∀ σ r σ', curNE σ → parseLoopStatement f σ = some (r, σ') → MRes σ σ' := by
  intro σ r σ' hc h
  match f with
  | 0 => exact nomatch h
  | m + 1 =>
    unfold parseLoopStatement at h
    simp only [] at h
    split at h
    · rename_i σ1 heq
      cases h
      exact MRes_addError (expectPeek_false_MRes heq) _
    · rename_i σ1 heq
      have h1 := expectPeek_true_MStrict hc heq
      have hc1 : curNE σ1 := by
        unfold curNE
        rw [(expectPeek_true heq).1, pNext_cur, (expectPeek_true heq).2]
        simp
      split at h
      · exact nomatch h
      · rename_i blk σ2 heq2
        cases h
        exact (MStrict_MRes_trans h1 ((IH m (by omega)).pBS_m σ1 _ _ hc1 heq2).toMRes).toMRes

theorem pFoS_step_s (f : Nat) (IH : ∀ g, g < f → PSpecS g) :
    ∀ σ, curNE σ → PB σ 2 < f → (parseForStatement f σ).isSome := by
  intro σ hc hb
  match f with
  | 0 => exact absurd hb (by unfold PB; omega)
  | m + 1 =>
    unfold parseForStatement
    simp only []
    split
    · rfl
    · rename_i σ1 heq
      have h1 := (expectPeek_true_MStrict hc heq).1
      split
      · rfl
      · rename_i σ2 heq2
        have h2 := (expectPeek_pair_MWeak heq2).1
        split
        · rfl
        · rename_i σ3 heq3
          have h3 := (expectPeek_pair_MWeak heq3).1
          have h4 := muP_pNext_le σ3
          have hs := (IH m (by omega)).pE_s LOWEST (pNext σ3)
            (by unfold PB at hb ⊢; omega)
          split
          · rename_i hv
            rw [hv] at hs
            exact absurd hs (by simp)
          · rfl
          · rename_i iter σ5 hv
            have h5 := (IH m (by omega)).pE_m _ _ _ _ hv
            split
            · rfl
            · rename_i σ6 heq4
              have h6 := (expectPeek_pair_MWeak heq4).1
              split
              · rfl
              · rename_i σ7 heq5
                have h7 := (expectPeek_pair_MWeak heq5).1
                have hc7 : curNE σ7 := by
                  unfold curNE
                  rw [(expectPeek_true heq5).1, pNext_cur, (expectPeek_true heq5).2]
                  simp
                have hs2 := (IH m (by omega)).pBS_s σ7 hc7
                  (by unfold PB at hb ⊢
                      have a1 := h5.1
                      omega)
                split
                · rename_i hv2
                  rw [hv2] at hs2
                  exact absurd hs2 (by simp)
                · rfl

theorem pFoS_step_m (f : Nat) (IH : ∀ g, g < f → PSpecS g) :
    ∀ σ r σ', curNE σ → parseForStatement f σ = some (r, σ') → MRes σ σ' := by
  intro σ r σ' hc h
  match f with
  | 0 => exact nomatch h
  | m + 1 =>
    unfold parseForStatement at h
    simp only [] at h
    split at h
    · rename_i σ1 heq
      cases h
      exact MRes_addError (expectPeek_false_MRes heq) _
    · rename_i σ1 heq
      have h1 := expectPeek_true_MStrict hc heq
      split at h
      · rename_i σ2 heq2
        cases h
        exact (MStrict_MWeak_trans h1 (MWeak_trans (expectPeek_pair_MWeak heq2)
          ⟨le_of_eq (addError_muP _ _), addError_appends _ _⟩)).toMRes
      · rename_i σ2 heq2
        have h2 := expectPeek_pair_MWeak heq2
        split at h
        · rename_i σ3 heq3
          cases h
          exact (MStrict_MWeak_trans h1 (MWeak_trans h2
            (MWeak_trans (expectPeek_pair_MWeak heq3)
              ⟨le_of_eq (addError_muP _ _), addError_appends _ _⟩))).toMRes
        · rename_i σ3 heq3
          have h3 := expectPeek_pair_MWeak heq3
          have hst0 : MStrict σ (pNext σ3) := MStrict_MWeak_trans
            (MStrict_MWeak_trans (MStrict_MWeak_trans h1 h2) h3) (pNext_MWeak σ3)
          split at h
          · exact nomatch h
          · rename_i σ5 hv
            have h5 := (IH m (by omega)).pE_m _ _ _ _ hv
            cases h
            exact (MStrict_MRes_trans hst0 h5).toMRes
          · rename_i iter σ5 hv
            have h5 := (IH m (by omega)).pE_m _ _ _ _ hv
            have hst : MStrict σ σ5 := MStrict_MRes_trans hst0 h5
            split at h
            · rename_i σ6 heq4
              cases h
              exact (MStrict_MWeak_trans hst (MWeak_trans (expectPeek_pair_MWeak heq4)
                ⟨le_of_eq (addError_muP _ _), addError_appends _ _⟩)).toMRes
            · rename_i σ6 heq4
              split at h
              · rename_i σ7 heq5
                cases h
                exact (MStrict_MWeak_trans hst (MWeak_trans (expectPeek_pair_MWeak heq4)
                  (MWeak_trans (expectPeek_pair_MWeak heq5)
                    ⟨le_of_eq (addError_muP _ _), addError_appends _ _⟩))).toMRes
              · rename_i σ7 heq5
                split at h
                · exact nomatch h
                · rename_i blk σ8 heq6
                  cases h
                  have hc7 : curNE σ7 := by
                    unfold curNE
                    rw [(expectPeek_true heq5).1, pNext_cur, (expectPeek_true heq5).2]
                    simp
                  have h8 := ((IH m (by omega)).pBS_m σ7 _ _ hc7 heq6).toMRes
                  exact (MStrict_MRes_trans (MStrict_MWeak_trans
                    (MStrict_MWeak_trans hst (expectPeek_pair_MWeak heq4))
                    (expectPeek_pair_MWeak heq5)) h8).toMRes

theorem pFR_step_s (f : Nat) (IH : ∀ g, g < f → PSpecS g) :
    ∀ t rt nm σ, curNE σ → PB σ 2 < f → (parseFunctionRest f t rt nm σ).isSome := by
  intro t rt nm σ hc hb
  match f with
  | 0 => exact absurd hb (by unfold PB; omega)
  | m + 1 =>
    unfold parseFunctionRest
    split
    · rfl
    · rename_i σ1 heq
      have h1 := (expectPeek_true_MStrict hc heq).1
      have hc1 : curNE σ1 := by
        unfold curNE
        rw [(expectPeek_true heq).1, pNext_cur, (expectPeek_true heq).2]
        simp
      have hs := pFP_suff m σ1 hc1 (by unfold PB at hb ⊢; omega)
      split
      · rename_i hv
        rw [hv] at hs
        exact absurd hs (by simp)
      · rename_i params σ2 hv
        have h2 := pFP_mono m σ1 _ _ hv
        split
        · rfl
        · rename_i σ3 heq2
          have h3 := (expectPeek_pair_MWeak heq2).1
          have hc3 : curNE σ3 := by
            unfold curNE
            rw [(expectPeek_true heq2).1, pNext_cur, (expectPeek_true heq2).2]
            simp
          have hs2 := (IH m (by omega)).pBS_s σ3 hc3
            (by unfold PB at hb ⊢
                have a1 := h2.1
                omega)
          split
          · rename_i hv2
            rw [hv2] at hs2
            exact absurd hs2 (by simp)
          · rfl

theorem pFR_step_m (f : Nat) (IH : ∀ g, g < f → PSpecS g) :
    ∀ t rt nm σ r σ', curNE σ → parseFunctionRest f t rt nm σ = some (r, σ') →
      MRes σ σ' := by
  intro t rt nm σ r σ' hc h
  match f with
  | 0 => exact nomatch h
  | m + 1 =>
    unfold parseFunctionRest at h
    split at h
    · rename_i σ1 heq
      cases h
      exact expectPeek_false_MRes heq
    · rename_i σ1 heq
      have h1 := expectPeek_true_MStrict hc heq
      split at h
      · exact nomatch h
      · rename_i params σ2 hv
        have h2 := pFP_mono m σ1 _ _ hv
        have hst : MStrict σ σ2 := MStrict_MWeak_trans h1 h2
        split at h
        · rename_i σ3 heq2
          cases h
          exact (MStrict_MWeak_trans hst (expectPeek_pair_MWeak heq2)).toMRes
        · rename_i σ3 heq2
          split at h
          · exact nomatch h
          · rename_i body σ4 heq3
            cases h
            have hc3 : curNE σ3 := by
              unfold curNE
              rw [(expectPeek_true heq2).1, pNext_cur, (expectPeek_true heq2).2]
              simp
            have h4 := ((IH m (by omega)).pBS_m σ3 _ _ hc3 heq3).toMRes
            exact (MStrict_MRes_trans
              (MStrict_MWeak_trans hst (expectPeek_pair_MWeak heq2)) h4).toMRes

theorem pFnS_step_s (f : Nat) (IH : ∀ g, g < f → PSpecS g) :
    ∀ σ, curNE σ → PB σ 2 < f → (parseFunctionStatement f σ).isSome := by
  intro σ hc hb
  match f with
  | 0 => exact absurd hb (by unfold PB; omega)
  | m + 1 =>
    unfold parseFunctionStatement
    split
    · simp only []
      split
      · rfl
      · rename_i σ1 heq
        have h1 := (expectPeek_true_MStrict hc heq).1
        have hc1 : curNE σ1 := by
          unfold curNE
          rw [(expectPeek_true heq).1, pNext_cur, (expectPeek_true heq).2]
          simp
        have hs := pFR_step_s (m) (fun g hg => IH g (by omega)) σ.curToken
          ⟨.VOID, bs "void"⟩ σ1.curToken σ1 hc1 (by unfold PB at hb ⊢; omega)
        obtain ⟨v, hv⟩ := Option.isSome_iff_exists.mp hs
        rw [hv]
        rfl
    · simp only []
      split
      · rfl
      · rename_i σ1 heq
        have h1 := (expectPeek_true_MStrict hc heq).1
        have hc1 : curNE σ1 := by
          unfold curNE
          rw [(expectPeek_true heq).1, pNext_cur, (expectPeek_true heq).2]
          simp
        have hs := pFR_step_s (m) (fun g hg => IH g (by omega)) σ.curToken
          σ.curToken σ1.curToken σ1 hc1 (by unfold PB at hb ⊢; omega)
        obtain ⟨v, hv⟩ := Option.isSome_iff_exists.mp hs
        rw [hv]
        rfl

theorem pFnS_step_m (f : Nat) (IH : ∀ g, g < f → PSpecS g) :
    ∀ σ r σ', curNE σ → parseFunctionStatement f σ = some (r, σ') → MRes σ σ' := by
  intro σ r σ' hc h
  match f with
  | 0 => exact nomatch h
  | m + 1 =>
    unfold parseFunctionStatement at h
    split at h
    · simp only [] at h
      split at h
      · rename_i σ1 heq
        cases h
        exact expectPeek_false_MRes heq
      · rename_i σ1 heq
        have h1 := expectPeek_true_MStrict hc heq
        have hc1 : curNE σ1 := by
          unfold curNE
          rw [(expectPeek_true heq).1, pNext_cur, (expectPeek_true heq).2]
          simp
        exact (MStrict_MRes_trans h1
          (pFR_step_m m (fun g hg => IH g (by omega)) _ _ _ _ _ _ hc1 h)).toMRes
    · simp only [] at h
      split at h
      · rename_i σ1 heq
        cases h
        exact expectPeek_false_MRes heq
      · rename_i σ1 heq
        have h1 := expectPeek_true_MStrict hc heq
        have hc1 : curNE σ1 := by
          unfold curNE
          rw [(expectPeek_true heq).1, pNext_cur, (expectPeek_true heq).2]
          simp
        exact (MStrict_MRes_trans h1
          (pFR_step_m m (fun g hg => IH g (by omega)) _ _ _ _ _ _ hc1 h)).toMRes

theorem pBS_step_s (f : Nat) (IH : ∀ g, g < f → PSpecS g) :
    ∀ σ, curNE σ → PB σ 2 < f → (parseBlockStatement f σ).isSome := by
  intro σ hc hb
  match f with
  | 0 => exact absurd hb (by unfold PB; omega)
  | m + 1 =>
    unfold parseBlockStatement
    simp only []
    have hμ := muP_pNext_lt hc
    exact (IH m (by omega)).pBL_s σ.curToken [] (pNext σ)
      (by unfold PB at hb ⊢; omega)

theorem pBS_step_m (f : Nat) (IH : ∀ g, g < f → PSpecS g) :
    ∀ σ r σ', curNE σ → parseBlockStatement f σ = some (r, σ') → MStrict σ σ' := by
  intro σ r σ' hc h
  match f with
  | 0 => exact nomatch h
  | m + 1 =>
    unfold parseBlockStatement at h
    simp only [] at h
    exact MStrict_MRes_trans (pNext_MStrict hc) ((IH m (by omega)).pBL_m _ _ _ _ _ h)

theorem expectPeek_false_type {t : TokenType} {σ σ' : PState}
    (h : expectPeek t σ = (false, σ')) : σ.peekToken.type ≠ t := by
  unfold expectPeek at h
  split at h
  · exact absurd (Prod.mk.injEq _ _ _ _ ▸ h).1 (by simp)
  · assumption

theorem pIfB_step_s (f : Nat) (IH : ∀ g, g < f → PSpecS g) :
    ∀ σ, curNE σ → PB σ 4 < f → (parseIfBody f σ).isSome := by
  intro σ hc hb
  match f with
  | 0 => exact absurd hb (by unfold PB; omega)
  | m + 1 =>
    unfold parseIfBody
    simp only []
    split
    · split
      · rfl
      · rename_i σ1 heq
        have h1 := (expectPeek_true_MStrict hc heq).1
        have hc1 : curNE σ1 := by
          unfold curNE
          rw [(expectPeek_true heq).1, pNext_cur, (expectPeek_true heq).2]
          simp
        have hs := (IH m (by omega)).pBS_s σ1 hc1
          (by unfold PB at hb ⊢; omega)
        split
        · rename_i hv
          rw [hv] at hs
          exact absurd hs (by simp)
        · rfl
    · have hμ := muP_pNext_lt hc
      have hs := (IH m (by omega)).pSt_s (pNext σ)
        (by unfold PB at hb ⊢; omega)
      split
      · rename_i hv
        rw [hv] at hs
        exact absurd hs (by simp)
      · rfl
      · rfl

theorem pIfB_step_m (f : Nat) (IH : ∀ g, g < f → PSpecS g) :
    ∀ σ r σ', curNE σ → parseIfBody f σ = some (r, σ') → MStrict σ σ' := by
  intro σ r σ' hc h
  match f with
  | 0 => exact nomatch h
  | m + 1 =>
    unfold parseIfBody at h
    simp only [] at h
    split at h
    · rename_i hlb
      split at h
      · rename_i σ1 heq
        exact absurd hlb (expectPeek_false_type heq)
      · rename_i σ1 heq
        have h1 := expectPeek_true_MStrict hc heq
        have hc1 : curNE σ1 := by
          unfold curNE
          rw [(expectPeek_true heq).1, pNext_cur, (expectPeek_true heq).2]
          simp
        split at h
        · exact nomatch h
        · rename_i blk σ2 heq2
          cases h
          exact MStrict_MRes_trans h1 ((IH m (by omega)).pBS_m σ1 _ _ hc1 heq2).toMRes
    · have h1 := pNext_MStrict hc
      split at h
      · exact nomatch h
      · rename_i σ2 heq2
        cases h
        exact MStrict_MRes_trans h1 ((IH m (by omega)).pSt_m _ _ _ heq2)
      · rename_i s σ2 heq2
        cases h
        exact MStrict_MRes_trans h1 ((IH m (by omega)).pSt_m _ _ _ heq2)

theorem pIfS_step_s (f : Nat) (IH : ∀ g, g < f → PSpecS g) :
    ∀ σ, curNE σ → PB σ 2 < f → (parseIfStatement f σ).isSome := by
  intro σ hc hb
  match f with
  | 0 => exact absurd hb (by unfold PB; omega)
  | m + 1 =>
    unfold parseIfStatement
    simp only []
    split
    · rfl
    · rename_i σ1 heq
      have h1 := (expectPeek_true_MStrict hc heq).1
      have h2 := muP_pNext_le σ1
      have hs := (IH m (by omega)).pE_s LOWEST (pNext σ1)
        (by unfold PB at hb ⊢; omega)
      split
      · rename_i hv
        rw [hv] at hs
        exact absurd hs (by simp)
      · rfl
      · rename_i cond σ3 hv
        have h3 := (IH m (by omega)).pE_m _ _ _ _ hv
        split
        · rfl
        · rename_i σ4 heq2
          have h4 := (expectPeek_pair_MWeak heq2).1
          have hc4 : curNE σ4 := by
            unfold curNE
            rw [(expectPeek_true heq2).1, pNext_cur, (expectPeek_true heq2).2]
            simp
          have hs2 := pIfB_step_s m (fun g hg => IH g (by omega)) σ4 hc4
            (by unfold PB at hb ⊢
                have a1 := h3.1
                omega)
          split
          · rename_i hv2
            rw [hv2] at hs2
            exact absurd hs2 (by simp)
          · rfl
          · rename_i thenB σ5 hv2
            have h5 := pIfB_step_m m (fun g hg => IH g (by omega)) σ4 _ _ hc4 hv2
            exact (IH m (by omega)).pIEL_s σ.curToken cond thenB [] σ5
              (by unfold PB at hb ⊢
                  have a1 := h3.1
                  have a2 := h5.1
                  omega)

theorem pIfS_step_m (f : Nat) (IH : ∀ g, g < f → PSpecS g) :
    ∀ σ r σ', curNE σ → parseIfStatement f σ = some (r, σ') → MRes σ σ' := by
  intro σ r σ' hc h
  match f with
  | 0 => exact nomatch h
  | m + 1 =>
    unfold parseIfStatement at h
    simp only [] at h
    split at h
    · rename_i σ1 heq
      cases h
      exact expectPeek_false_MRes heq
    · rename_i σ1 heq
      have h1 := expectPeek_true_MStrict hc heq
      have hst0 := MStrict_MWeak_trans h1 (pNext_MWeak σ1)
      split at h
      · exact nomatch h
      · rename_i σ3 hv
        have h3 := (IH m (by omega)).pE_m _ _ _ _ hv
        cases h
        exact (MStrict_MRes_trans hst0 h3).toMRes
      · rename_i cond σ3 hv
        have h3 := (IH m (by omega)).pE_m _ _ _ _ hv
        have hst : MStrict σ σ3 := MStrict_MRes_trans hst0 h3
        split at h
        · rename_i σ4 heq2
          cases h
          exact (MStrict_MWeak_trans hst (expectPeek_pair_MWeak heq2)).toMRes
        · rename_i σ4 heq2
          have h4 := expectPeek_pair_MWeak heq2
          have hc4 : curNE σ4 := by
            unfold curNE
            rw [(expectPeek_true heq2).1, pNext_cur, (expectPeek_true heq2).2]
            simp
          split at h
          · exact nomatch h
          · rename_i σ5 hv2
            have h5 := pIfB_step_m m (fun g hg => IH g (by omega)) σ4 _ _ hc4 hv2
            cases h
            exact (MStrict_MWeak_trans (MStrict_MRes_trans
              (MStrict_MWeak_trans hst h4) h5.toMRes) (MWeak_trans
                ⟨le_refl _, List.prefix_rfl⟩ ⟨le_refl _, List.prefix_rfl⟩)).toMRes
          · rename_i thenB σ5 hv2
            have h5 := pIfB_step_m m (fun g hg => IH g (by omega)) σ4 _ _ hc4 hv2
            have h6 := (IH m (by omega)).pIEL_m _ _ _ _ _ _ _ h
            exact (MStrict_MRes_trans (MStrict_MRes_trans
              (MStrict_MWeak_trans hst h4) h5.toMRes) h6).toMRes

theorem pIEL_step_s (f : Nat) (IH : ∀ g, g < f → PSpecS g) :
    ∀ t c b eis σ, PB σ 5 < f → (parseIfElseLoop f t c b eis σ).isSome := by
  intro t c b eis σ hb
  match f with
  | 0 => exact absurd hb (by unfold PB; omega)
  | m + 1 =>
    unfold parseIfElseLoop
    simp only []
    split
    · rename_i helse
      have h1 := muP_pNext_le σ
      have hc1 : curNE (pNext σ) := by
        unfold curNE
        rw [pNext_cur, helse]
        simp
      split
      · have h2 := muP_pNext_lt hc1
        split
        · rfl
        · rename_i σ3 heq
          have h3 := (expectPeek_pair_MWeak heq).1
          have h4 := muP_pNext_le σ3
          have hs := (IH m (by omega)).pE_s LOWEST (pNext σ3)
            (by unfold PB at hb ⊢; omega)
          split
          · rename_i hv
            rw [hv] at hs
            exact absurd hs (by simp)
          · rfl
          · rename_i cnd σ5 hv
            have h5 := (IH m (by omega)).pE_m _ _ _ _ hv
            split
            · rfl
            · rename_i σ6 heq2
              have h6 := (expectPeek_pair_MWeak heq2).1
              have hc6 : curNE σ6 := by
                unfold curNE
                rw [(expectPeek_true heq2).1, pNext_cur, (expectPeek_true heq2).2]
                simp
              have hs2 := pIfB_step_s m (fun g hg => IH g (by omega)) σ6 hc6
                (by unfold PB at hb ⊢
                    have a1 := h5.1
                    omega)
              split
              · rename_i hv2
                rw [hv2] at hs2
                exact absurd hs2 (by simp)
              · rfl
              · rename_i blk σ7 hv2
                have h7 := pIfB_step_m m (fun g hg => IH g (by omega)) σ6 _ _ hc6 hv2
                exact (IH m (by omega)).pIEL_s t c b (eis ++ [(cnd, blk)]) σ7
                  (by unfold PB at hb ⊢
                      have a1 := h5.1
                      have a2 := h7.1
                      omega)
      · have hs2 := pIfB_step_s m (fun g hg => IH g (by omega)) (pNext σ) hc1
          (by unfold PB at hb ⊢; omega)
        split
        · rename_i hv2
          rw [hv2] at hs2
          exact absurd hs2 (by simp)
        · rfl
        · rfl
    · rfl

theorem pIEL_step_m (f : Nat) (IH : ∀ g, g < f → PSpecS g) :
    ∀ t c b eis σ r σ', parseIfElseLoop f t c b eis σ = some (r, σ') → MRes σ σ' := by
  intro t c b eis σ r σ' h
  match f with
  | 0 => exact nomatch h
  | m + 1 =>
    unfold parseIfElseLoop at h
    simp only [] at h
    split at h
    · rename_i helse
      have h1 := pNext_MWeak σ
      have hc1 : curNE (pNext σ) := by
        unfold curNE
        rw [pNext_cur, helse]
        simp
      split at h
      · have hst2 : MStrict σ (pNext (pNext σ)) :=
          MWeak_MStrict_trans h1 (pNext_MStrict hc1)
        split at h
        · rename_i σ3 heq
          cases h
          exact (MStrict_MWeak_trans hst2 (expectPeek_pair_MWeak heq)).toMRes
        · rename_i σ3 heq
          have hst3 := MStrict_MWeak_trans (MStrict_MWeak_trans hst2
            (expectPeek_pair_MWeak heq)) (pNext_MWeak σ3)
          split at h
          · exact nomatch h
          · rename_i σ5 hv
            cases h
            exact (MStrict_MRes_trans hst3 ((IH m (by omega)).pE_m _ _ _ _ hv)).toMRes
          · rename_i cnd σ5 hv
            have hst5 : MStrict σ σ5 :=
              MStrict_MRes_trans hst3 ((IH m (by omega)).pE_m _ _ _ _ hv)
            split at h
            · rename_i σ6 heq2
              cases h
              exact (MStrict_MWeak_trans hst5 (expectPeek_pair_MWeak heq2)).toMRes
            · rename_i σ6 heq2
              have hc6 : curNE σ6 := by
                unfold curNE
                rw [(expectPeek_true heq2).1, pNext_cur, (expectPeek_true heq2).2]
                simp
              have hst6 : MStrict σ σ6 :=
                MStrict_MWeak_trans hst5 (expectPeek_pair_MWeak heq2)
              split at h
              · exact nomatch h
              · rename_i σ7 hv2
                cases h
                exact (MStrict_MRes_trans hst6
                  (pIfB_step_m m (fun g hg => IH g (by omega)) σ6 _ _ hc6 hv2).toMRes).toMRes
              · rename_i blk σ7 hv2
                have hst7 : MStrict σ σ7 := MStrict_MRes_trans hst6
                  (pIfB_step_m m (fun g hg => IH g (by omega)) σ6 _ _ hc6 hv2).toMRes
                exact (MStrict_MRes_trans hst7
                  ((IH m (by omega)).pIEL_m _ _ _ _ _ _ _ h)).toMRes
      · split at h
        · exact nomatch h
        · rename_i σ2 hv2
          cases h
          exact (MWeak_MStrict_trans h1
            (pIfB_step_m m (fun g hg => IH g (by omega)) (pNext σ) _ _ hc1 hv2)).toMRes
        · rename_i blk σ2 hv2
          cases h
          exact (MWeak_MStrict_trans h1
            (pIfB_step_m m (fun g hg => IH g (by omega)) (pNext σ) _ _ hc1 hv2)).toMRes
    · cases h
      exact MRes_refl _

theorem MRes_pNext_strict {σ σ1 : PState} (h : MRes σ σ1) (hc : curNE σ) :
    MStrict σ (pNext σ1) := by
  have hpe : (pNext σ1).errors = σ1.errors := pNext_errors σ1
  by_cases hmu : muP σ1 = muP σ
  · have hs := h.2.1 hmu
    have hc1 : curNE σ1 := by
      unfold curNE
      rw [hs.1]
      exact hc
    refine ⟨?_, h.2.2.trans (by rw [hpe])⟩
    have := muP_pNext_lt hc1
    omega
  · refine ⟨?_, h.2.2.trans (by rw [hpe])⟩
    have h2 := muP_pNext_le σ1
    have := h.1
    omega

theorem pEL_step_s (f : Nat) (IH : ∀ g, g < f → PSpecS g) :
    ∀ p e σ, PB σ 3 < f → (parseExpressionLoop f p e σ).isSome := by
  intro p e σ hb
  match f with
  | 0 => exact absurd hb (by unfold PB; omega)
  | m + 1 =>
    unfold parseExpressionLoop
    simp only []
    split
    · rename_i hguard
      have hc1 : curNE (pNext σ) := by
        unfold curNE
        rw [pNext_cur]
        exact hguard.2.2
      have h1 := muP_pNext_le σ
      have hs := (IH m (by omega)).pIE_s e (pNext σ) hc1
        (by unfold PB at hb ⊢; omega)
      split
      · rename_i hv
        rw [hv] at hs
        exact absurd hs (by simp)
      · rfl
      · rename_i e2 σ2 hv
        have h2 := (IH m (by omega)).pIE_m _ _ _ _ hc1 hv
        exact (IH m (by omega)).pEL_s p e2 σ2
          (by unfold PB at hb ⊢
              have a1 := h2.1
              omega)
    · rfl

theorem pEL_step_m (f : Nat) (IH : ∀ g, g < f → PSpecS g) :
    ∀ p e σ r σ', parseExpressionLoop f p e σ = some (r, σ') → MRes σ σ' := by
  intro p e σ r σ' h
  match f with
  | 0 => exact nomatch h
  | m + 1 =>
    unfold parseExpressionLoop at h
    simp only [] at h
    split at h
    · rename_i hguard
      have hc1 : curNE (pNext σ) := by
        unfold curNE
        rw [pNext_cur]
        exact hguard.2.2
      have h1 := pNext_MWeak σ
      split at h
      · exact nomatch h
      · rename_i σ2 hv
        cases h
        exact (MWeak_MStrict_trans h1 ((IH m (by omega)).pIE_m _ _ _ _ hc1 hv)).toMRes
      · rename_i e2 σ2 hv
        have h2 : MStrict σ σ2 :=
          MWeak_MStrict_trans h1 ((IH m (by omega)).pIE_m _ _ _ _ hc1 hv)
        exact (MStrict_MRes_trans h2 ((IH m (by omega)).pEL_m _ _ _ _ _ h)).toMRes
    · cases h
      exact MRes_refl _

theorem pE_step_s (f : Nat) (IH : ∀ g, g < f → PSpecS g) :
    ∀ p σ, PB σ 4 < f → (parseExpression f p σ).isSome := by
  intro p σ hb
  match f with
  | 0 => exact absurd hb (by unfold PB; omega)
  | m + 1 =>
    unfold parseExpression
    have hs := (IH m (by omega)).pPE_s σ (by unfold PB at hb ⊢; omega)
    split
    · rename_i hv
      rw [hv] at hs
      exact absurd hs (by simp)
    · rfl
    · rename_i l σ1 hv
      have h1 := (IH m (by omega)).pPE_m _ _ _ hv
      exact (IH m (by omega)).pEL_s p l σ1
        (by unfold PB at hb ⊢
            have a1 := h1.1
            omega)

theorem pE_step_m (f : Nat) (IH : ∀ g, g < f → PSpecS g) :
    ∀ p σ r σ', parseExpression f p σ = some (r, σ') → MRes σ σ' := by
  intro p σ r σ' h
  match f with
  | 0 => exact nomatch h
  | m + 1 =>
    unfold parseExpression at h
    split at h
    · exact nomatch h
    · rename_i σ1 hv
      cases h
      exact (IH m (by omega)).pPE_m _ _ _ hv
    · rename_i l σ1 hv
      exact MRes_trans ((IH m (by omega)).pPE_m _ _ _ hv)
        ((IH m (by omega)).pEL_m _ _ _ _ _ h)

theorem pPE_step_s (f : Nat) (IH : ∀ g, g < f → PSpecS g) :
    ∀ σ, PB σ 3 < f → (parsePrefixExpression f σ).isSome := by
  intro σ0 hb
  match f with
  | 0 => exact absurd hb (by unfold PB; omega)
  | m + 1 =>
    unfold parsePrefixExpression
    have hsw := sWT_suff m σ0 (by unfold PB at hb ⊢; omega)
    split
    · rename_i hv
      rw [hv] at hsw
      exact absurd hsw (by simp)
    · rename_i σ hv
      have hmw := (sWT_mono m σ0 σ hv).1
      split
      · rfl
      · rfl
      · split <;> rfl
      · rfl
      · rfl
      · rfl
      · rfl
      · rename_i heq
        have hcl : curNE σ := by unfold curNE; rw [heq]; simp
        have hμ := muP_pNext_lt hcl
        have hs := (IH m (by omega)).pE_s LOWEST (pNext σ)
          (by unfold PB at hb ⊢; omega)
        simp only []
        split
        · rename_i hv2
          rw [hv2] at hs
          exact absurd hs (by simp)
        · rename_i exp σ2 hv2
          split <;> rfl
      · rename_i heq
        have hcl : curNE σ := by unfold curNE; rw [heq]; simp
        obtain ⟨v, hv2⟩ := Option.isSome_iff_exists.mp
          ((IH m (by omega)).pPOE_s σ hcl (by unfold PB at hb ⊢; omega))
        rw [hv2]
        rfl
      · rename_i heq
        have hcl : curNE σ := by unfold curNE; rw [heq]; simp
        obtain ⟨v, hv2⟩ := Option.isSome_iff_exists.mp
          ((IH m (by omega)).pPOE_s σ hcl (by unfold PB at hb ⊢; omega))
        rw [hv2]
        rfl
      · rename_i heq
        have hcl : curNE σ := by unfold curNE; rw [heq]; simp
        obtain ⟨v, hv2⟩ := Option.isSome_iff_exists.mp
          ((IH m (by omega)).pTE_s σ hcl (by unfold PB at hb ⊢; omega))
        rw [hv2]
        rfl
      · rfl
      · rfl

theorem pPE_step_m (f : Nat) (IH : ∀ g, g < f → PSpecS g) :
    ∀ σ r σ', parsePrefixExpression f σ = some (r, σ') → MRes σ σ' := by
  intro σ0 r σ' h
  match f with
  | 0 => exact nomatch h
  | m + 1 =>
    unfold parsePrefixExpression at h
    split at h
    · exact nomatch h
    · rename_i σ hv
      have hmw := sWT_mono m σ0 σ hv
      split at h
      · cases h
        exact hmw
      · cases h
        exact hmw
      · split at h
        · cases h
          exact MRes_addError hmw _
        · cases h
          exact hmw
      · cases h
        exact hmw
      · cases h
        exact hmw
      · cases h
        exact hmw
      · rename_i heq
        cases h
        have hcl : curNE σ := by unfold curNE; rw [heq]; simp
        exact MRes_trans hmw (pNext_MStrict hcl).toMRes
      · rename_i heq
        have hcl : curNE σ := by unfold curNE; rw [heq]; simp
        have h1 := pNext_MStrict hcl
        simp only [] at h
        split at h
        · exact nomatch h
        · rename_i exp σ2 hv2
          have h2 := (IH m (by omega)).pE_m _ _ _ _ hv2
          split at h <;>
            (rename_i σ3 heq2
             cases h
             exact MRes_trans hmw (MStrict_MWeak_trans (MStrict_MRes_trans h1 h2)
               (expectPeek_pair_MWeak heq2)).toMRes)
      · rename_i heq
        have hcl : curNE σ := by unfold curNE; rw [heq]; simp
        exact MRes_trans hmw ((IH m (by omega)).pPOE_m σ _ _ hcl h).toMRes
      · rename_i heq
        have hcl : curNE σ := by unfold curNE; rw [heq]; simp
        exact MRes_trans hmw ((IH m (by omega)).pPOE_m σ _ _ hcl h).toMRes
      · rename_i heq
        have hcl : curNE σ := by unfold curNE; rw [heq]; simp
        exact MRes_trans hmw ((IH m (by omega)).pTE_m σ _ _ hcl h)
      · cases h
        exact hmw
      · cases h
        exact MRes_addError hmw _

theorem wrapIface_eq_some {o : Option (Option Stmt × PState)} {r : Option Stmt}
    {σ' : PState} (h : wrapIface o = some (r, σ')) : ∃ r0, o = some (r0, σ') := by
  unfold wrapIface at h
  rcases o with _ | ⟨r0, σ0⟩
  · exact nomatch h
  · refine ⟨r0, ?_⟩
    simp only [Option.map] at h
    cases h
    rfl

theorem wrapIface_isSome {o : Option (Option Stmt × PState)} (h : o.isSome) :
    (wrapIface o).isSome := by
  unfold wrapIface
  rcases o with _ | v
  · exact absurd h (by simp)
  · rfl

theorem pSt_step_s (f : Nat) (IH : ∀ g, g < f → PSpecS g) :
    ∀ σ, PB σ 6 < f → (parseStatement f σ).isSome := by
  intro σ0 hb
  match f with
  | 0 => exact absurd hb (by unfold PB; omega)
  | m + 1 =>
    unfold parseStatement
    have hsw := sWT_suff m σ0 (by unfold PB at hb ⊢; omega)
    split
    · rename_i hv
      rw [hv] at hsw
      exact absurd hsw (by simp)
    · rename_i σ hv
      have hmw := (sWT_mono m σ0 σ hv).1
      split
      · rename_i heq
        exact wrapIface_isSome ((IH m (by omega)).pIfS_s σ
          (by unfold curNE; rw [heq]; simp) (by unfold PB at hb ⊢; omega))
      · rename_i heq
        obtain ⟨v, hv2⟩ := Option.isSome_iff_exists.mp ((IH m (by omega)).pRS_s σ
          (by unfold curNE; rw [heq]; simp) (by unfold PB at hb ⊢; omega))
        rw [hv2]
        rfl
      · rfl
      · rfl
      · rename_i heq
        exact wrapIface_isSome ((IH m (by omega)).pWS_s σ
          (by unfold curNE; rw [heq]; simp) (by unfold PB at hb ⊢; omega))
      · rename_i heq
        exact wrapIface_isSome ((IH m (by omega)).pLS_s σ
          (by unfold curNE; rw [heq]; simp) (by unfold PB at hb ⊢; omega))
      · rename_i heq
        exact wrapIface_isSome ((IH m (by omega)).pFoS_s σ
          (by unfold curNE; rw [heq]; simp) (by unfold PB at hb ⊢; omega))
      · rename_i heq
        exact wrapIface_isSome ((IH m (by omega)).pFnS_s σ
          (by unfold curNE; rw [heq]; simp) (by unfold PB at hb ⊢; omega))
      · rename_i heq
        split
        · split
          · exact wrapIface_isSome ((IH m (by omega)).pFnS_s σ
              (by unfold curNE; rw [heq]; simp) (by unfold PB at hb ⊢; omega))
          · split
            · exact wrapIface_isSome ((IH m (by omega)).pDS_s σ
                (by unfold curNE; rw [heq]; simp) (by unfold PB at hb ⊢; omega))
            · exact wrapIface_isSome ((IH m (by omega)).pDS_s σ
                (by unfold curNE; rw [heq]; simp) (by unfold PB at hb ⊢; omega))
        · rfl
      · rename_i heq
        split
        · split
          · exact wrapIface_isSome ((IH m (by omega)).pFnS_s σ
              (by unfold curNE; rw [heq]; simp) (by unfold PB at hb ⊢; omega))
          · split
            · exact wrapIface_isSome ((IH m (by omega)).pDS_s σ
                (by unfold curNE; rw [heq]; simp) (by unfold PB at hb ⊢; omega))
            · exact wrapIface_isSome ((IH m (by omega)).pDS_s σ
                (by unfold curNE; rw [heq]; simp) (by unfold PB at hb ⊢; omega))
        · rfl
      · rfl
      · rfl
      · rfl
      · have hs := (IH m (by omega)).pE_s LOWEST σ (by unfold PB at hb ⊢; omega)
        split
        · rename_i hv2
          rw [hv2] at hs
          exact absurd hs (by simp)
        · rfl
        · split <;> rfl

theorem pSt_step_m (f : Nat) (IH : ∀ g, g < f → PSpecS g) :
    ∀ σ r σ', parseStatement f σ = some (r, σ') → MRes σ σ' := by
  intro σ0 r σ' h
  match f with
  | 0 => exact nomatch h
  | m + 1 =>
    unfold parseStatement at h
    split at h
    · exact nomatch h
    · rename_i σ hv
      have hmw := sWT_mono m σ0 σ hv
      split at h
      · rename_i heq
        obtain ⟨r0, h2⟩ := wrapIface_eq_some h
        exact MRes_trans hmw ((IH m (by omega)).pIfS_m σ _ _
          (by unfold curNE; rw [heq]; simp) h2)
      · rename_i heq
        simp only [Option.map_eq_some'] at h
        rcases h with ⟨⟨s0, σ1⟩, h2, h3⟩
        cases h3
        exact MRes_trans hmw ((IH m (by omega)).pRS_m σ _ _
          (by unfold curNE; rw [heq]; simp) h2)
      · rename_i heq
        cases h
        refine MRes_trans hmw ?_
        unfold parseBreakStatement
        simp only []
        split
        · exact (pNext_MStrict (by unfold curNE; rw [heq]; simp)).toMRes
        · exact MRes_refl _
      · rename_i heq
        cases h
        refine MRes_trans hmw ?_
        unfold parseContinueStatement
        simp only []
        split
        · exact (pNext_MStrict (by unfold curNE; rw [heq]; simp)).toMRes
        · exact MRes_refl _
      · rename_i heq
        obtain ⟨r0, h2⟩ := wrapIface_eq_some h
        exact MRes_trans hmw ((IH m (by omega)).pWS_m σ _ _
          (by unfold curNE; rw [heq]; simp) h2)
      · rename_i heq
        obtain ⟨r0, h2⟩ := wrapIface_eq_some h
        exact MRes_trans hmw ((IH m (by omega)).pLS_m σ _ _
          (by unfold curNE; rw [heq]; simp) h2)
      · rename_i heq
        obtain ⟨r0, h2⟩ := wrapIface_eq_some h
        exact MRes_trans hmw ((IH m (by omega)).pFoS_m σ _ _
          (by unfold curNE; rw [heq]; simp) h2)
      · rename_i heq
        obtain ⟨r0, h2⟩ := wrapIface_eq_some h
        exact MRes_trans hmw ((IH m (by omega)).pFnS_m σ _ _
          (by unfold curNE; rw [heq]; simp) h2)
      · rename_i heq
        split at h
        · split at h
          · obtain ⟨r0, h2⟩ := wrapIface_eq_some h
            exact MRes_trans hmw ((IH m (by omega)).pFnS_m σ _ _
              (by unfold curNE; rw [heq]; simp) h2)
          · split at h
            · obtain ⟨r0, h2⟩ := wrapIface_eq_some h
              exact MRes_trans hmw ((IH m (by omega)).pDS_m σ _ _
                (by unfold curNE; rw [heq]; simp) h2)
            · obtain ⟨r0, h2⟩ := wrapIface_eq_some h
              exact MRes_trans hmw ((IH m (by omega)).pDS_m σ _ _
                (by unfold curNE; rw [heq]; simp) h2)
        · cases h
          exact hmw
      · rename_i heq
        split at h
        · split at h
          · obtain ⟨r0, h2⟩ := wrapIface_eq_some h
            exact MRes_trans hmw ((IH m (by omega)).pFnS_m σ _ _
              (by unfold curNE; rw [heq]; simp) h2)
          · split at h
            · obtain ⟨r0, h2⟩ := wrapIface_eq_some h
              exact MRes_trans hmw ((IH m (by omega)).pDS_m σ _ _
                (by unfold curNE; rw [heq]; simp) h2)
            · obtain ⟨r0, h2⟩ := wrapIface_eq_some h
              exact MRes_trans hmw ((IH m (by omega)).pDS_m σ _ _
                (by unfold curNE; rw [heq]; simp) h2)
        · cases h
          exact hmw
      · cases h
        exact hmw
      · cases h
        exact hmw
      · cases h
        exact hmw
      · rename_i hne1 hne2 hne3 hne4 hne5 hne6 hne7 hne8 hne9 hne10 hne11 hne12 hne13
        split at h
        · exact nomatch h
        · rename_i expr σ1 hv2
          have hE := (IH m (by omega)).pE_m _ _ _ _ hv2
          simp only [] at h
          split at h
          · cases h
            have hcne : curNE σ := by
              unfold curNE
              intro hEOF
              exact hne13 hEOF
            exact MRes_trans hmw (MRes_pNext_strict hE hcne).toMRes
          · cases h
            exact MRes_trans hmw hE
        · rename_i σ1 hv2
          have hE := (IH m (by omega)).pE_m _ _ _ _ hv2
          split at h
          · cases h
            exact MRes_addError (MRes_trans hmw hE) _
          · cases h
            exact MRes_trans hmw hE

theorem pBL_step_s (f : Nat) (IH : ∀ g, g < f → PSpecS g) :
    ∀ t acc σ, PB σ 7 < f → (parseBlockLoop f t acc σ).isSome := by
  intro t acc σ hb
  match f with
  | 0 => exact absurd hb (by unfold PB; omega)
  | m + 1 =>
    unfold parseBlockLoop
    simp only []
    split
    · rename_i hguard
      have hs := (IH m (by omega)).pSt_s σ (by unfold PB at hb ⊢; omega)
      split
      · rename_i hv
        rw [hv] at hs
        exact absurd hs (by simp)
      · rename_i stmtOpt σ1 hv
        have hE := (IH m (by omega)).pSt_m _ _ _ hv
        have hcne : curNE σ := hguard.2
        have hstrict := MRes_pNext_strict hE hcne
        exact (IH m (by omega)).pBL_s t _ (pNext σ1)
          (by unfold PB at hb ⊢
              have a1 := hstrict.1
              omega)
    · rfl

theorem pBL_step_m (f : Nat) (IH : ∀ g, g < f → PSpecS g) :
    ∀ t acc σ r σ', parseBlockLoop f t acc σ = some (r, σ') → MRes σ σ' := by
  intro t acc σ r σ' h
  match f with
  | 0 => exact nomatch h
  | m + 1 =>
    unfold parseBlockLoop at h
    simp only [] at h
    split at h
    · rename_i hguard
      split at h
      · exact nomatch h
      · rename_i stmtOpt σ1 hv
        have hE := (IH m (by omega)).pSt_m _ _ _ hv
        have hstrict := MRes_pNext_strict hE hguard.2
        exact (MStrict_MRes_trans hstrict ((IH m (by omega)).pBL_m _ _ _ _ _ h)).toMRes
    · cases h
      exact MRes_refl _

theorem pPL_step_s (f : Nat) (IH : ∀ g, g < f → PSpecS g) :
    ∀ acc σ, PB σ 7 < f → (parseProgramLoop f acc σ).isSome := by
  intro acc σ hb
  match f with
  | 0 => exact absurd hb (by unfold PB; omega)
  | m + 1 =>
    unfold parseProgramLoop
    simp only []
    split
    · rename_i hguard
      have hsw := sWT_suff m σ (by unfold PB at hb ⊢; omega)
      split
      · rename_i hv
        rw [hv] at hsw
        exact absurd hsw (by simp)
      · rename_i σ1 hv
        have hmw := sWT_mono m σ σ1 hv
        split
        · rfl
        · rename_i hne
          have hs := (IH m (by omega)).pSt_s σ1
            (by unfold PB at hb ⊢
                have a1 := hmw.1
                omega)
          split
          · rename_i hv2
            rw [hv2] at hs
            exact absurd hs (by simp)
          · rename_i stmtOpt σ2 hv2
            have hE := (IH m (by omega)).pSt_m _ _ _ hv2
            have hstrict := MRes_pNext_strict (MRes_trans hmw hE)
              (by unfold curNE; exact hguard)
            exact (IH m (by omega)).pPL_s _ (pNext σ2)
              (by unfold PB at hb ⊢
                  have a1 := hstrict.1
                  omega)
    · rfl

theorem pPL_step_m (f : Nat) (IH : ∀ g, g < f → PSpecS g) :
    ∀ acc σ r σ', parseProgramLoop f acc σ = some (r, σ') → MRes σ σ' := by
  intro acc σ r σ' h
  match f with
  | 0 => exact nomatch h
  | m + 1 =>
    unfold parseProgramLoop at h
    simp only [] at h
    split at h
    · rename_i hguard
      split at h
      · exact nomatch h
      · rename_i σ1 hv
        have hmw := sWT_mono m σ σ1 hv
        split at h
        · cases h
          exact hmw
        · rename_i hne
          split at h
          · exact nomatch h
          · rename_i stmtOpt σ2 hv2
            have hE := (IH m (by omega)).pSt_m _ _ _ hv2
            have hstrict := MRes_pNext_strict (MRes_trans hmw hE)
              (by unfold curNE; exact hguard)
            exact (MStrict_MRes_trans hstrict
              ((IH m (by omega)).pPL_m _ _ _ _ h)).toMRes
    · cases h
      exact MRes_refl _

/-- The full parser specification holds at every fuel value. -/
theorem pSpec_all : ∀ f, PSpecS f := by
  intro f
  induction f using Nat.strong_induction_on with
  | _ f IH =>
    exact
      { pE_s := pE_step_s f IH
        pE_m := pE_step_m f IH
        pEL_s := pEL_step_s f IH
        pEL_m := pEL_step_m f IH
        pPE_s := pPE_step_s f IH
        pPE_m := pPE_step_m f IH
        pPOE_s := pPOE_step_s f IH
        pPOE_m := pPOE_step_m f IH
        pIE_s := pIE_step_s f IH
        pIE_m := pIE_step_m f IH
        pTE_s := pTE_step_s f IH
        pTE_m := pTE_step_m f IH
        pRS_s := pRS_step_s f IH
        pRS_m := pRS_step_m f IH
        pDS_s := pDS_step_s f IH
        pDS_m := pDS_step_m f IH
        pWS_s := pWS_step_s f IH
        pWS_m := pWS_step_m f IH
        pLS_s := pLS_step_s f IH
        pLS_m := pLS_step_m f IH
        pFoS_s := pFoS_step_s f IH
        pFoS_m := pFoS_step_m f IH
        pFnS_s := pFnS_step_s f IH
        pFnS_m := pFnS_step_m f IH
        pFR_s := pFR_step_s f IH
        pFR_m := pFR_step_m f IH
        pIfS_s := pIfS_step_s f IH
        pIfS_m := pIfS_step_m f IH
        pIfB_s := pIfB_step_s f IH
        pIfB_m := pIfB_step_m f IH
        pIEL_s := pIEL_step_s f IH
        pIEL_m := pIEL_step_m f IH
        pSt_s := pSt_step_s f IH
        pSt_m := pSt_step_m f IH
        pBS_s := pBS_step_s f IH
        pBS_m := pBS_step_m f IH
        pBL_s := pBL_step_s f IH
        pBL_m := pBL_step_m f IH
        pPL_s := pPL_step_s f IH
        pPL_m := pPL_step_m f IH }

theorem popTok_len_le (ts : List Token) : (popTok ts).2.length ≤ ts.length := by
  cases ts <;> simp [popTok]

theorem mkParser_muP (ts : List Token) : muP (mkParser ts) ≤ ts.length + 3 := by
  unfold mkParser muP
  simp only []
  have w1 := wTok_le_one (popTok ts).1
  have w2 := wTok_le_one (popTok (popTok ts).2).1
  have w3 := wTok_le_one (popTok (popTok (popTok ts).2).2).1
  have l1 := popTok_len_le ts
  have l2 := popTok_len_le (popTok ts).2
  have l3 := popTok_len_le (popTok (popTok ts).2).2
  omega

theorem lexTokens_length : ∀ (l : Lexer) (n : Nat), (lexTokens l n).length = n
  | _, 0 => rfl
  | l, n + 1 => by
    unfold lexTokens
    simp only [List.length_cons]
    rw [lexTokens_length _ n]

theorem tokenize_length (input : Bytes) : (tokenize input).length = input.length + 1 := by
  unfold tokenize
  rw [lexTokens_length]

/-- C6: `ParseProgram` terminates on every finite input string: the whole
pipeline returns a `Program` for every input (the fuel `parseFuel` is
never exhausted), because — as the second conjunct states — every
`nextToken` step from a non-`EOF` current token strictly decreases the
remaining-token measure `muP`, so every parse loop makes progress. -/
theorem claim_C6 :
    (∀ input : Bytes, ∃ pr errs, runParser input = some (pr, errs)) ∧
    (∀ σ : PState, σ.curToken.type ≠ TokenType.EOF → muP (pNext σ) < muP σ) := by
  constructor
  · intro input
    have hμ := mkParser_muP (tokenize input)
    rw [tokenize_length] at hμ
    have hs := (pSpec_all (parseFuel input)).pPL_s [] (mkParser (tokenize input))
      (by unfold PB parseFuel; omega)
    obtain ⟨v, hv⟩ := Option.isSome_iff_exists.mp hs
    rcases v with ⟨ss, σ'⟩
    refine ⟨⟨ss⟩, σ'.errors, ?_⟩
    unfold runParser ParseProgram
    rw [hv]
    rfl
  · exact fun σ h => muP_pNext_lt h

/-- C7: for every input string, `ParseProgram` returns normally with a
`Program` value, and errors are only ever appended to the parser's error
list (every parse step extends it, preserving source order), retrievable
after the parse via `GetErrors` (the second component of `runParser`). -/
theorem claim_C7 :
    (∀ input : Bytes, ∃ pr errs, runParser input = some (pr, errs)) ∧
    (∀ (f : Nat) (acc : List Stmt) (σ : PState) (r : List Stmt) (σ' : PState),
      parseProgramLoop f acc σ = some (r, σ') → σ.errors <+: σ'.errors) ∧
    (∀ (f : Nat) (σ : PState) (r : Option Stmt) (σ' : PState),
      parseStatement f σ = some (r, σ') → σ.errors <+: σ'.errors) := by
  refine ⟨?_, ?_, ?_⟩
  · intro input
    have hμ := mkParser_muP (tokenize input)
    rw [tokenize_length] at hμ
    have hs := (pSpec_all (parseFuel input)).pPL_s [] (mkParser (tokenize input))
      (by unfold PB parseFuel; omega)
    obtain ⟨v, hv⟩ := Option.isSome_iff_exists.mp hs
    rcases v with ⟨ss, σ'⟩
    refine ⟨⟨ss⟩, σ'.errors, ?_⟩
    unfold runParser ParseProgram
    rw [hv]
    rfl
  · intro f acc σ r σ' h
    exact ((pSpec_all f).pPL_m acc σ r σ' h).2.2
  · intro f σ r σ' h
    exact ((pSpec_all f).pSt_m σ r σ' h).2.2

/-- Witness for C7: the error-prefix conjuncts applied to the concrete
failing parse of `int foo` (one error is appended, the original empty
list is a prefix). -/
theorem claim_C7_witness :
    (mkParser (tokenize (bs "int foo"))).errors <+:
      (PState.mk [eofTok, eofTok, eofTok] eofTok eofTok eofTok
        [bs "expected next token to be =, got EOF instead"]).errors ∧
    (mkParser (tokenize (bs "int foo"))).errors <+:
      (PState.mk [eofTok, eofTok, eofTok, eofTok] ⟨.IDENT, bs "foo"⟩ eofTok eofTok
        [bs "expected next token to be =, got EOF instead"]).errors :=
  ⟨claim_C7.2.1 32 [] (mkParser (tokenize (bs "int foo"))) [Stmt.nilStmt]
      (PState.mk [eofTok, eofTok, eofTok] eofTok eofTok eofTok
        [bs "expected next token to be =, got EOF instead"]) rfl,
   claim_C7.2.2 32 (mkParser (tokenize (bs "int foo"))) (some Stmt.nilStmt)
      (PState.mk [eofTok, eofTok, eofTok, eofTok] ⟨.IDENT, bs "foo"⟩ eofTok eofTok
        [bs "expected next token to be =, got EOF instead"]) rfl⟩

/-- Witness for C6: the progress conjunct applied at a concrete state
whose current token is an integer literal. -/
theorem claim_C6_witness :
    muP (pNext (PState.mk [] ⟨.INT, bs "1"⟩ eofTok eofTok [])) <
      muP (PState.mk [] ⟨.INT, bs "1"⟩ eofTok eofTok []) :=
  claim_C6.2 (PState.mk [] ⟨.INT, bs "1"⟩ eofTok eofTok []) (by decide)
